import Mathlib

/-!
Verification development for the `thrift_parser` repository: a nom-based
Thrift IDL parser (`src/lib.rs`), a visitor (`src/visit.rs`) and a
concurrent compile driver (`src/compile.rs`).

The parser is shallowly embedded over `List Char`.  A parser outcome is
one of three constructors: `ok rest val` models nom's `Ok((rest, val))`,
`fail` models nom's recoverable `Err(Err::Error(..))` (the only error kind
these parsers produce: no `cut`/`Failure` is used in the source), and
`panic` models a Rust panic unwinding out of the parser (the source can
panic in `field_id`, where `v.parse::<usize>().unwrap()` is applied to an
unbounded digit string).
-/

namespace ThriftParser

namespace Nom

/-- Outcome of a nom-style parser: success with remaining input, a
recoverable parse error, or a Rust panic unwinding out of the combinators. -/
inductive PResult (α : Type) where
  | ok (rest : List Char) (val : α)
  | fail
  | panic
deriving DecidableEq, Repr

/-- A parser over character lists, as the Rust code's `&str` parsers. -/
def Parser (α : Type) : Type := List Char → PResult α

/-- Boolean prefix test used by `tag`. -/
def pre : List Char → List Char → Bool
  | [], _ => true
  | _ :: _, [] => false
  | c :: cs, d :: ds => c == d && pre cs ds

/-- nom `tag(t)`: consume exactly the literal `t` or fail. -/
def tag (t : List Char) : Parser (List Char) := fun i =>
  if pre t i then .ok (i.drop t.length) t else .fail

/-- nom `char(c)`. -/
def char (c : Char) : Parser Char := fun i =>
  match i with
  | d :: rest => if d = c then .ok rest c else .fail
  | [] => .fail

/-- nom `is_not(bad)`: one or more characters outside `bad`; fails on an
empty match (complete version). -/
def isNot (bad : List Char) : Parser (List Char) := fun i =>
  let v := i.takeWhile (fun c => !(bad.contains c))
  if v.isEmpty then .fail else .ok (i.dropWhile (fun c => !(bad.contains c))) v

/-- nom `take_till(p)`: zero or more characters until `p` holds. -/
def takeTill (p : Char → Bool) : Parser (List Char) := fun i =>
  .ok (i.dropWhile (fun c => !p c)) (i.takeWhile (fun c => !p c))

/-- Helper for `takeUntil`: the prefix of the input strictly before the
first occurrence of `t`, or `none` when `t` does not occur. -/
def takeUntilGo (t : List Char) : List Char → Option (List Char)
  | [] => none
  | c :: cs =>
    if pre t (c :: cs) then some [] else
      match takeUntilGo t cs with
      | some v => some (c :: v)
      | none => none

/-- nom `take_until(t)` (complete): everything before the first occurrence
of `t`, failing when `t` is absent; `t` itself is not consumed. -/
def takeUntil (t : List Char) : Parser (List Char) := fun i =>
  match takeUntilGo t i with
  | some v => .ok (i.drop v.length) v
  | none => .fail

/-- nom `digit1`. -/
def digit1 : Parser (List Char) := fun i =>
  let v := i.takeWhile Char.isDigit
  if v.isEmpty then .fail else .ok (i.dropWhile Char.isDigit) v

/-- The characters matched by nom `multispace0`. -/
def isMS (c : Char) : Bool := c == ' ' || c == '\t' || c == '\r' || c == '\n'

/-- The characters matched by nom `space0`/`space1`. -/
def isHS (c : Char) : Bool := c == ' ' || c == '\t'

/-- nom `multispace0`. -/
def multispace0 : Parser (List Char) := fun i =>
  .ok (i.dropWhile isMS) (i.takeWhile isMS)

/-- nom `space0`. -/
def space0 : Parser (List Char) := fun i =>
  .ok (i.dropWhile isHS) (i.takeWhile isHS)

/-- nom `space1`. -/
def space1 : Parser (List Char) := fun i =>
  let v := i.takeWhile isHS
  if v.isEmpty then .fail else .ok (i.dropWhile isHS) v

/-- Sequencing of parsers; `fail` and `panic` propagate. -/
def pbind {α β : Type} (p : Parser α) (q : α → Parser β) : Parser β := fun i =>
  match p i with
  | .ok rest v => q v rest
  | .fail => .fail
  | .panic => .panic

/-- nom `map(p, f)` with a total mapping function. -/
def map {α β : Type} (p : Parser α) (f : α → β) : Parser β := fun i =>
  match p i with
  | .ok rest v => .ok rest (f v)
  | .fail => .fail
  | .panic => .panic

/-- nom `preceded(p, q)`. -/
def preceded {α β : Type} (p : Parser α) (q : Parser β) : Parser β :=
  pbind p (fun _ => q)

/-- nom `pair`, and the building block for `tuple((...))`, which this
development writes as right-nested pairs. -/
def seq {α β : Type} (p : Parser α) (q : Parser β) : Parser (α × β) :=
  pbind p (fun v => map q (fun w => (v, w)))

/-- nom `delimited(a, b, c)`. -/
def delimited {α β γ : Type} (a : Parser α) (b : Parser β) (c : Parser γ) : Parser β :=
  pbind a (fun _ => pbind b (fun v => map c (fun _ => v)))

/-- nom `separated_pair(a, s, b)`. -/
def separated_pair {α β γ : Type} (a : Parser α) (s : Parser γ) (b : Parser β) :
    Parser (α × β) :=
  pbind a (fun v => pbind s (fun _ => map b (fun w => (v, w))))

/-- nom `opt(p)`: a recoverable error becomes `none` without consuming. -/
def opt {α : Type} (p : Parser α) : Parser (Option α) := fun i =>
  match p i with
  | .ok rest v => .ok rest (some v)
  | .fail => .ok i none
  | .panic => .panic

/-- nom `alt((...))` over a list of alternatives: the first success wins, a
recoverable error moves on to the next branch, a panic unwinds. -/
def alt {α : Type} : List (Parser α) → Parser α
  | [] => fun _ => .fail
  | p :: ps => fun i =>
    match p i with
    | .ok rest v => .ok rest v
    | .fail => alt ps i
    | .panic => .panic

/-- Loop of nom `many0`, written with explicit fuel.  nom's `many0` errors
out (`ErrorKind::Many`) when the inner parser succeeds without consuming;
therefore every iteration of the real loop consumes at least one character
and `input.length + 1` units of fuel are never exhausted.  The fuel-out
branch returns `fail` and is unreachable at the fuel used by `many0`. -/
def many0Go {α : Type} (p : Parser α) : Nat → List Char → PResult (List α)
  | 0, _ => .fail
  | fuel + 1, i =>
    match p i with
    | .fail => .ok i []
    | .panic => .panic
    | .ok i1 v =>
      if i1.length == i.length then .fail
      else
        match many0Go p fuel i1 with
        | .ok rest vs => .ok rest (v :: vs)
        | .fail => .fail
        | .panic => .panic

/-- nom `many0(p)`. -/
def many0 {α : Type} (p : Parser α) : Parser (List α) := fun i =>
  many0Go p (i.length + 1) i

/-- Loop of nom `separated_list1` after the first element, with fuel as in
`many0Go`: nom errors out (`ErrorKind::SeparatedList`) when the separator
succeeds without consuming, so the fuel is never exhausted in the source's
uses (the separator there is `tag(",")`). -/
def sepList1Go {α γ : Type} (s : Parser γ) (p : Parser α) :
    Nat → List Char → PResult (List α)
  | 0, _ => .fail
  | fuel + 1, i =>
    match s i with
    | .fail => .ok i []
    | .panic => .panic
    | .ok i1 _ =>
      if i1.length == i.length then .fail
      else
        match p i1 with
        | .fail => .ok i []
        | .panic => .panic
        | .ok i2 v =>
          match sepList1Go s p fuel i2 with
          | .ok rest vs => .ok rest (v :: vs)
          | .fail => .fail
          | .panic => .panic

/-- nom `separated_list1(s, p)`: the first element is mandatory. -/
def separated_list1 {α γ : Type} (s : Parser γ) (p : Parser α) : Parser (List α) := fun i =>
  match p i with
  | .fail => .fail
  | .panic => .panic
  | .ok i1 v =>
    match sepList1Go s p (i1.length + 1) i1 with
    | .ok rest vs => .ok rest (v :: vs)
    | .fail => .fail
    | .panic => .panic

end Nom

open Nom (PResult)

/-! The AST of `src/lib.rs`.  The Rust `context(..)` wrappers only label
errors and are omitted.  The Rust names `Annotation`/`Annotations` are
rendered `Annot`/`Annots` here. -/

/-- Rust `Identifier`. -/
structure Identifier where
  value : String
deriving DecidableEq, Repr

/-- Rust `StringLiteral`. -/
structure StringLiteral where
  value : String
deriving DecidableEq, Repr

/-- Rust `IntegerLiteral`: the digit string is kept verbatim. -/
structure IntegerLiteral where
  value : String
deriving DecidableEq, Repr

/-- Rust `FieldId`.  The Rust field is `usize`; parsing panics above
`usize::MAX`, which the parser embedding models explicitly. -/
structure FieldId where
  value : Nat
deriving DecidableEq, Repr

/-- Rust `ThriftType`. -/
inductive ThriftType where
  | Void
  | String
  | I16
  | I32
  | I64
  | Double
  | Bool
  | List (t : ThriftType)
  | Map (k : ThriftType) (v : ThriftType)
  | Identifier (id : Identifier)
deriving DecidableEq, Repr

/-- Rust `Requiredness`. -/
inductive Requiredness where
  | Optional
  | Required
deriving DecidableEq, Repr

/-- Rust `CommentLine`. -/
structure CommentLine where
  value : String
deriving DecidableEq, Repr

/-- Rust `CommentBlock`. -/
structure CommentBlock where
  value : List String
deriving DecidableEq, Repr

/-- Rust `Comment`. -/
inductive Comment where
  | Line (v : CommentLine)
  | Block (v : CommentBlock)
deriving DecidableEq, Repr

/-- Rust `Annotation`: a `name = "value"` pair. -/
structure Annot where
  name : Identifier
  value : StringLiteral
deriving DecidableEq, Repr

/-- Rust `Annotations` (field `annotations`). -/
structure Annots where
  annots : List Annot
deriving DecidableEq, Repr

/-- Rust `NamespaceDefinition`. -/
structure NamespaceDefinition where
  scope : Identifier
  name : Identifier
deriving DecidableEq, Repr

/-- Rust `IncludeDefinition`. -/
structure IncludeDefinition where
  path : StringLiteral
deriving DecidableEq, Repr

/-- Rust `FieldDefinition` (field `annotations` rendered `annots`). -/
structure FieldDefinition where
  name : Identifier
  field_id : FieldId
  field_type : ThriftType
  requiredness : Option Requiredness
  comments : List Comment
  annots : Option Annots
deriving DecidableEq, Repr

/-- Rust `StructDefinition`. -/
structure StructDefinition where
  name : Identifier
  fields : List FieldDefinition
  comments : List Comment
deriving DecidableEq, Repr

/-- Rust `EnumMember`. -/
structure EnumMember where
  name : Identifier
  initializer : Option IntegerLiteral
  comments : List Comment
deriving DecidableEq, Repr

/-- Rust `EnumDefinition`. -/
structure EnumDefinition where
  name : Identifier
  members : List EnumMember
  comments : List Comment
deriving DecidableEq, Repr

/-- Rust `FunctionDefinition` (field `annotations` rendered `annots`). -/
structure FunctionDefinition where
  name : Identifier
  return_type : ThriftType
  fields : List FieldDefinition
  comments : List Comment
  annots : Option Annots
deriving DecidableEq, Repr

/-- Rust `ServiceDefinition`. -/
structure ServiceDefinition where
  name : Identifier
  functions : List FunctionDefinition
  comments : List Comment
deriving DecidableEq, Repr

/-- Rust `TopDefinition`. -/
inductive TopDefinition where
  | Namespace (d : NamespaceDefinition)
  | Include (d : IncludeDefinition)
  | Struct (d : StructDefinition)
  | Enum (d : EnumDefinition)
  | Service (d : ServiceDefinition)
deriving DecidableEq, Repr

/-- Rust `ThriftDocument`. -/
structure ThriftDocument where
  body : List TopDefinition
deriving DecidableEq, Repr

/-- Rust `Comment::line_value`: `panic!()` on a block comment, modelled as
`none`. -/
def Comment.line_value : Comment → Option String
  | .Line v => some v.value
  | .Block _ => none

/-- Rust `Comment::block_value`: `panic!()` on a line comment, modelled as
`none`. -/
def Comment.block_value : Comment → Option (List String)
  | .Line _ => none
  | .Block v => some v.value

/-! The parsers of `src/lib.rs`, transcribed one by one. -/

/-- The excluded-character set of `identifier`: `is_not(" \t\n\r-=(){}[]<>")`. -/
def identChars : List Char :=
  [' ', '\t', '\n', '\r', '-', '=', '(', ')', '\x7b', '\x7d', '[', ']', '<', '>']

/-- Rust `identifier`. -/
def identifier : Nom.Parser Identifier :=
  Nom.map (Nom.preceded Nom.multispace0 (Nom.isNot identChars))
    (fun v => ⟨String.mk v⟩)

/-- Rust `string_literal`. -/
def string_literal : Nom.Parser StringLiteral :=
  Nom.map
    (Nom.delimited (Nom.char '"') (Nom.takeTill (fun c => c == '"')) (Nom.char '"'))
    (fun v => ⟨String.mk v⟩)

/-- Rust `namespace_definition`. -/
def namespace_definition : Nom.Parser NamespaceDefinition :=
  Nom.map
    (Nom.preceded Nom.multispace0
      (Nom.seq (Nom.tag "namespace".data)
        (Nom.seq Nom.space1 (Nom.seq identifier identifier))))
    (fun v => ⟨v.2.2.1, v.2.2.2⟩)

/-- Rust `include_definition`. -/
def include_definition : Nom.Parser IncludeDefinition :=
  Nom.map
    (Nom.preceded Nom.multispace0
      (Nom.seq (Nom.tag "include".data) (Nom.seq Nom.space1 string_literal)))
    (fun v => ⟨v.2.2⟩)

/-- The model takes `usize` to be 64 bits wide, as on the platforms the
crate targets. -/
def USIZE_MAX : Nat := 2 ^ 64 - 1

/-- Numeric value of a decimal digit string. -/
def digitsToNat (ds : List Char) : Nat :=
  ds.foldl (fun acc c => acc * 10 + (c.toNat - '0'.toNat)) 0

/-- Rust `field_id`.  The closure applies `v.parse::<usize>().unwrap()`,
which panics when the digit string exceeds `usize::MAX`. -/
def field_id : Nom.Parser FieldId := fun i =>
  match Nom.delimited Nom.multispace0 Nom.digit1 (Nom.tag ":".data) i with
  | .ok rest v =>
    if digitsToNat v ≤ USIZE_MAX then .ok rest ⟨digitsToNat v⟩ else .panic
  | .fail => .fail
  | .panic => .panic

/-- Rust `requiredness`. -/
def requiredness : Nom.Parser Requiredness :=
  Nom.map
    (Nom.preceded Nom.space1 (Nom.alt [Nom.tag "optional".data, Nom.tag "required".data]))
    (fun v => if v = "optional".data then .Optional else .Required)

/-- Rust `list_type`, abstracted over the recursive occurrence of
`thrift_type` (the `Box` is erased). -/
def list_typeOf (ty : Nom.Parser ThriftType) : Nom.Parser ThriftType :=
  Nom.preceded (Nom.tag "list".data) (Nom.delimited (Nom.char '<') ty (Nom.char '>'))

/-- Rust `map_type`, abstracted over the recursive occurrence of
`thrift_type`. -/
def map_typeOf (ty : Nom.Parser ThriftType) : Nom.Parser (ThriftType × ThriftType) :=
  Nom.preceded (Nom.tag "map".data)
    (Nom.delimited (Nom.char '<')
      (Nom.separated_pair ty (Nom.delimited Nom.space0 (Nom.tag ",".data) Nom.space0) ty)
      (Nom.char '>'))

/-- Rust `thrift_type`, with fuel standing in for the Rust call stack: each
recursive descent into `list<...>`/`map<...>` consumes at least five input
characters, so `input.length + 1` units of fuel (as supplied by
`thrift_type`) are never exhausted and the fuel-out `fail` branch is
unreachable there. -/
def thrift_typeF : Nat → Nom.Parser ThriftType
  | 0 => fun _ => .fail
  | n + 1 =>
    Nom.preceded Nom.space0 (Nom.alt [
      Nom.map (Nom.tag "void".data) (fun _ => ThriftType.Void),
      Nom.map (Nom.tag "string".data) (fun _ => ThriftType.String),
      Nom.map (Nom.tag "i16".data) (fun _ => ThriftType.I16),
      Nom.map (Nom.tag "i32".data) (fun _ => ThriftType.I32),
      Nom.map (Nom.tag "i64".data) (fun _ => ThriftType.I64),
      Nom.map (Nom.tag "double".data) (fun _ => ThriftType.Double),
      Nom.map (Nom.tag "bool".data) (fun _ => ThriftType.Bool),
      Nom.map (list_typeOf (thrift_typeF n)) ThriftType.List,
      Nom.map (map_typeOf (thrift_typeF n)) (fun v => ThriftType.Map v.1 v.2),
      Nom.map identifier ThriftType.Identifier])

/-- Rust `thrift_type`. -/
def thrift_type : Nom.Parser ThriftType := fun i => thrift_typeF (i.length + 1) i

/-- Rust `list_type` at the top level. -/
def list_type : Nom.Parser ThriftType := list_typeOf thrift_type

/-- Rust `map_type` at the top level. -/
def map_type : Nom.Parser (ThriftType × ThriftType) := map_typeOf thrift_type

/-- Rust `str::trim`, for the ASCII whitespace relevant to this grammar. -/
def trimChars (v : List Char) : List Char :=
  ((v.dropWhile Char.isWhitespace).reverse.dropWhile Char.isWhitespace).reverse

/-- Rust `comment_line`. -/
def comment_line : Nom.Parser CommentLine :=
  Nom.map
    (Nom.preceded Nom.multispace0
      (Nom.preceded (Nom.tag "//".data) (Nom.takeTill (fun c => c == '\n' || c == '\r'))))
    (fun v => ⟨String.mk (trimChars v)⟩)

/-- Rust `str::split('\n')` on a character list. -/
def splitNl : List Char → List (List Char)
  | [] => [[]]
  | c :: cs =>
    if c = '\n' then [] :: splitNl cs
    else
      match splitNl cs with
      | [] => [[c]]
      | l :: ls => (c :: l) :: ls

/-- Rust `comment_block`: the interior is trimmed, split on newlines, and
each line trimmed. -/
def comment_block : Nom.Parser CommentBlock :=
  Nom.map
    (Nom.preceded Nom.multispace0
      (Nom.delimited (Nom.tag "/*".data) (Nom.takeUntil "*/".data) (Nom.tag "*/".data)))
    (fun v => ⟨(splitNl (trimChars v)).map (fun l => String.mk (trimChars l))⟩)

/-- Rust `comment`. -/
def comment : Nom.Parser Comment :=
  Nom.alt [Nom.map comment_line Comment.Line, Nom.map comment_block Comment.Block]

/-- Rust `comment_inline`: only horizontal whitespace may precede the
`//`, so the comment must sit on the same logical line. -/
def comment_inline : Nom.Parser Comment :=
  Nom.map
    (Nom.preceded Nom.space0
      (Nom.preceded (Nom.tag "//".data) (Nom.takeTill (fun c => c == '\n' || c == '\r'))))
    (fun v => Comment.Line ⟨String.mk (trimChars v)⟩)

/-- Rust `annotation`. -/
def annot : Nom.Parser Annot :=
  Nom.map
    (Nom.separated_pair identifier
      (Nom.delimited Nom.space0 (Nom.tag "=".data) Nom.space0) string_literal)
    (fun v => ⟨v.1, v.2⟩)

/-- Rust `annotations`. -/
def annots : Nom.Parser Annots :=
  Nom.map
    (Nom.preceded Nom.space0
      (Nom.delimited (Nom.tag "(".data) (Nom.separated_list1 (Nom.tag ",".data) annot)
        (Nom.tag ")".data)))
    (fun v => ⟨v⟩)

/-- Rust `field_definition`: the inline comment, when present, is pushed
onto the end of the leading-comment list. -/
def field_definition : Nom.Parser FieldDefinition :=
  Nom.map
    (Nom.seq (Nom.many0 comment)
      (Nom.seq field_id
        (Nom.seq (Nom.opt requiredness)
          (Nom.seq thrift_type
            (Nom.seq identifier (Nom.seq (Nom.opt annots) (Nom.opt comment_inline)))))))
    (fun v =>
      { field_id := v.2.1
        requiredness := v.2.2.1
        field_type := v.2.2.2.1
        name := v.2.2.2.2.1
        comments :=
          match v.2.2.2.2.2.2 with
          | some inline => v.1 ++ [inline]
          | none => v.1
        annots := v.2.2.2.2.2.1 })

/-- Rust `struct_definition_without_comments`. -/
def struct_definition_without_comments : Nom.Parser StructDefinition :=
  Nom.map
    (Nom.preceded Nom.multispace0
      (Nom.preceded (Nom.tag "struct".data)
        (Nom.seq identifier
          (Nom.delimited (Nom.preceded Nom.multispace0 (Nom.tag "\x7b".data))
            (Nom.many0 field_definition)
            (Nom.preceded Nom.multispace0 (Nom.tag "\x7d".data))))))
    (fun v => { name := v.1, fields := v.2, comments := [] })

/-- Rust `struct_definition`. -/
def struct_definition : Nom.Parser StructDefinition :=
  Nom.map
    (Nom.preceded Nom.multispace0
      (Nom.seq (Nom.many0 comment) struct_definition_without_comments))
    (fun v => { v.2 with comments := v.1 })

/-- Rust `enum_member`. -/
def enum_member : Nom.Parser EnumMember :=
  Nom.map
    (Nom.seq (Nom.many0 comment)
      (Nom.seq
        (Nom.seq identifier
          (Nom.opt (Nom.preceded (Nom.delimited Nom.space0 (Nom.tag "=".data) Nom.space0)
            Nom.digit1)))
        (Nom.opt comment_inline)))
    (fun v =>
      { name := v.2.1.1
        initializer := v.2.1.2.map (fun ds => ⟨String.mk ds⟩)
        comments :=
          match v.2.2 with
          | some inline => v.1 ++ [inline]
          | none => v.1 })

/-- Rust `enum_definition_without_comments`. -/
def enum_definition_without_comments : Nom.Parser EnumDefinition :=
  Nom.map
    (Nom.preceded Nom.multispace0
      (Nom.preceded (Nom.tag "enum".data)
        (Nom.seq identifier
          (Nom.delimited (Nom.preceded Nom.multispace0 (Nom.tag "\x7b".data))
            (Nom.many0 enum_member)
            (Nom.preceded Nom.multispace0 (Nom.tag "\x7d".data))))))
    (fun v => { name := v.1, members := v.2, comments := [] })

/-- Rust `enum_definition`. -/
def enum_definition : Nom.Parser EnumDefinition :=
  Nom.map
    (Nom.preceded Nom.multispace0
      (Nom.seq (Nom.many0 comment) enum_definition_without_comments))
    (fun v => { v.2 with comments := v.1 })

/-- Rust `function_definition_without_comments`. -/
def function_definition_without_comments : Nom.Parser FunctionDefinition :=
  Nom.map
    (Nom.preceded Nom.multispace0
      (Nom.seq thrift_type
        (Nom.seq identifier
          (Nom.seq
            (Nom.delimited (Nom.preceded Nom.space0 (Nom.tag "(".data))
              (Nom.many0 field_definition) (Nom.tag ")".data))
            (Nom.opt annots)))))
    (fun v =>
      { name := v.2.1
        return_type := v.1
        fields := v.2.2.1
        comments := []
        annots := v.2.2.2 })

/-- Rust `function_definition`. -/
def function_definition : Nom.Parser FunctionDefinition :=
  Nom.map
    (Nom.preceded Nom.multispace0
      (Nom.seq (Nom.many0 comment) function_definition_without_comments))
    (fun v => { v.2 with comments := v.1 })

/-- Rust `service_definition_without_comments`. -/
def service_definition_without_comments : Nom.Parser ServiceDefinition :=
  Nom.map
    (Nom.preceded Nom.multispace0
      (Nom.preceded (Nom.tag "service".data)
        (Nom.seq identifier
          (Nom.delimited (Nom.preceded Nom.multispace0 (Nom.tag "\x7b".data))
            (Nom.many0 function_definition)
            (Nom.preceded Nom.multispace0 (Nom.tag "\x7d".data))))))
    (fun v => { name := v.1, functions := v.2, comments := [] })

/-- Rust `service_definition`. -/
def service_definition : Nom.Parser ServiceDefinition :=
  Nom.map
    (Nom.preceded Nom.multispace0
      (Nom.seq (Nom.many0 comment) service_definition_without_comments))
    (fun v => { v.2 with comments := v.1 })

/-- The top-level alternative tried by `parse_thrift_document` — inlined
in the Rust source, named here so lemmas can speak about it. -/
def top_definition : Nom.Parser TopDefinition :=
  Nom.alt [
    Nom.map namespace_definition TopDefinition.Namespace,
    Nom.map include_definition TopDefinition.Include,
    Nom.map struct_definition TopDefinition.Struct,
    Nom.map enum_definition TopDefinition.Enum,
    Nom.map service_definition TopDefinition.Service]

/-- Rust `parse_thrift_document`. -/
def parse_thrift_document : Nom.Parser ThriftDocument :=
  Nom.map (Nom.many0 top_definition) (fun v => ⟨v⟩)

namespace Nom

/-- A parser that never lengthens its input on success.  Every parser in
the source has this property; it is what makes the `many0` loops total. -/
def Mono {α : Type} (p : Parser α) : Prop :=
  ∀ i rest v, p i = .ok rest v → rest.length ≤ i.length

/-- A parser that consumes at least one character on success. -/
def Strict {α : Type} (p : Parser α) : Prop :=
  ∀ i rest v, p i = .ok rest v → rest.length < i.length

end Nom

/-! The code generator's enum emission. -/

/-- Modelled from the spec: the enum emission of the code generator
(`generate.rs` is not among the provided sources).  Per spec sections 4.3
and 8, the emitted `const` object maps each member name, in declaration
order, to its integer initializer when present and otherwise to an
auto-assigned zero-based index; `enumConstEntriesFrom idx ms` emits the
entries of `ms` when the auto-index counter stands at `idx`. -/
def enumConstEntriesFrom : Nat → List EnumMember → List (String × String)
  | _, [] => []
  | idx, m :: ms =>
    (m.name.value,
      match m.initializer with
      | some lit => lit.value
      | none => toString idx) :: enumConstEntriesFrom (idx + 1) ms

/-- Modelled from the spec: the member-name-to-value entries of the `const`
object emitted for an enum definition, in declaration order. -/
def enumConstEntries (members : List EnumMember) : List (String × String) :=
  enumConstEntriesFrom 0 members

/-! The compile driver of `src/compile.rs`, as a small-step relation.  A
spawned closure performs, in order: the mutex-guarded check-and-insert on
the seen vector (one atomic step, `skip` or `acquire` below), then — with
the lock released — the file read, parse, output write and dependency
spawning (`runErr`/`runOk` below).  The scheduler picks any task at any
position, which covers every interleaving of Rayon's pool. -/

/-- Rust `Path::join` on Unix-style path strings: an absolute right-hand
side replaces the base. -/
def joinPath (base rel : String) : String :=
  if rel.data.head? = some '/' then rel
  else if base = "" then rel else base ++ "/" ++ rel

/-- Rust `Path::parent` (as a string; the root-less cases degenerate to
`""` exactly as `Path` does for single-component relative paths). -/
def parentDir (p : String) : String :=
  String.mk (((p.data.reverse.dropWhile (fun c => !(c == '/'))).drop 1).reverse)

/-- Rust `str::strip_prefix` on character lists. -/
def dropPreL : List Char → List Char → Option (List Char)
  | [], ys => some ys
  | _ :: _, [] => none
  | x :: xs, y :: ys => if x = y then dropPreL xs ys else none

/-- The relative file computed by `compile_file`:
`file.strip_prefix(&src_dir)` followed by stripping one leading `/`.  A
`none` result makes the Rust task panic via `unwrap`; the model's run
steps therefore require it to be `some`. -/
def relName (srcDir file : String) : Option String :=
  match dropPreL srcDir.data file.data with
  | none => none
  | some r => some (String.mk (if r.head? = some '/' then r.drop 1 else r))

/-- Rust `PathBuf::set_extension("ts")` on a path string: replace the text
after the last `.` of the base name, or append `.ts` when the base name
has no dot. -/
def setExtTs (p : String) : String :=
  let r := p.data.reverse
  let base := r.takeWhile (fun c => !(c == '/'))
  if base.contains '.' then
    String.mk ((['s', 't'] ++ r.dropWhile (fun c => !(c == '.'))).reverse)
  else p ++ ".ts"

/-- The dependency scan of `compile.rs`: `DepsVisitor` (a `Visit`
implementation from `src/visit.rs` whose only override records
`IncludeDefinition.path`) inserts every include path of the document into
a `HashSet`.  The model keeps first-occurrence order and deduplicates,
matching the set semantics; the driver never relies on iteration order. -/
def collectDeps (doc : ThriftDocument) : List String :=
  doc.body.foldl
    (fun acc d =>
      match d with
      | .Include incl => if incl.path.value ∈ acc then acc else acc ++ [incl.path.value]
      | _ => acc) []

/-- Modelled from the spec: the environment of one `compile` run.
`srcDir`/`outDir` are the resolved roots (path canonicalisation is out of
the spec's scope), `contents` is the file system (I/O failures abort and
are outside the modelled claims).  `parseDoc` stands for
`Parser::new(&code).parse()` — the `parse` module's `Parser` wrapper is
not among the provided sources, so the spec's contract "a `Document` or a
parse error" (section 4.1) is modelled by an arbitrary such function.
`generate` stands for `Generator::new(&mut ast).build(options)` —
`generate.rs` is likewise absent, and only its being a function of the
document matters to the driver claims (the options are fixed for the whole
run). -/
structure DriverEnv where
  srcDir : String
  outDir : String
  contents : String → String
  parseDoc : String → Except String ThriftDocument
  generate : ThriftDocument → String

/-- A worker task for one source file: `pending` models a spawned closure
that has not yet taken the seen-set mutex, `running` one that passed the
check-and-insert and will execute the task body. -/
inductive Task where
  | pending (file : String)
  | running (file : String)
deriving DecidableEq, Repr

/-- The file a task is for. -/
def Task.file : Task → String
  | .pending f => f
  | .running f => f

/-- Whether a task has passed the seen check and has its body pending. -/
def Task.isRunning : Task → Bool
  | .pending _ => false
  | .running _ => true

/-- Observable state of a `compile` run: the mutex-guarded seen vector,
the live tasks, and the file reads, file writes and error-channel sends in
the order they happened. -/
structure DriverState where
  seen : List String
  tasks : List Task
  reads : List String
  writes : List (String × String)
  errs : List String
deriving DecidableEq, Repr

/-- The error line sent by a failing task:
`format!("Compiler failed: {}. {}", relative_file, err)`. -/
def errLine (rel msg : String) : String :=
  "Compiler failed: " ++ rel ++ ". " ++ msg

/-- One scheduler step of the driver.  `skip`/`acquire` are the atomic
mutex-guarded contains/push pair at the top of `compile_file`'s closure;
`runErr`/`runOk` are the body that follows: read the file, compute the
relative path, parse, and either send the error line or write the output
and spawn one task per collected dependency (resolved against the
including file's directory). -/
inductive DStep (env : DriverEnv) : DriverState → DriverState → Prop
  | skip (s : DriverState) (l r : List Task) (f : String) :
      s.tasks = l ++ Task.pending f :: r →
      f ∈ s.seen →
      DStep env s { s with tasks := l ++ r }
  | acquire (s : DriverState) (l r : List Task) (f : String) :
      s.tasks = l ++ Task.pending f :: r →
      f ∉ s.seen →
      DStep env s { s with seen := s.seen ++ [f], tasks := l ++ Task.running f :: r }
  | runErr (s : DriverState) (l r : List Task) (f rel msg : String) :
      s.tasks = l ++ Task.running f :: r →
      relName env.srcDir f = some rel →
      env.parseDoc (env.contents f) = .error msg →
      DStep env s
        { s with
          tasks := l ++ r
          reads := s.reads ++ [f]
          errs := s.errs ++ [errLine rel msg] }
  | runOk (s : DriverState) (l r : List Task) (f rel : String) (doc : ThriftDocument) :
      s.tasks = l ++ Task.running f :: r →
      relName env.srcDir f = some rel →
      env.parseDoc (env.contents f) = .ok doc →
      DStep env s
        { s with
          tasks := l ++ r ++
            (collectDeps doc).map (fun dep => Task.pending (joinPath (parentDir f) dep))
          reads := s.reads ++ [f]
          writes := s.writes ++ [(setExtTs (joinPath env.outDir rel), env.generate doc)] }

/-- The state after `compile` submits its initial batch: one pending task
per input, each joined onto `src_dir` when relative. -/
def initState (env : DriverEnv) (inputs : List String) : DriverState :=
  { seen := []
    tasks := inputs.map (fun f => Task.pending (joinPath env.srcDir f))
    reads := []
    writes := []
    errs := [] }

/-- Reachability under the driver's step relation. -/
def Reaches (env : DriverEnv) (s s2 : DriverState) : Prop :=
  Relation.ReflTransGen (DStep env) s s2

/-- The value `compile` returns: the first message received on the error
channel, or success when every sender was dropped without a send. -/
def compileResult (s : DriverState) : Except String Unit :=
  match s.errs with
  | [] => .ok ()
  | e :: _ => .error e

/-- The output path the task for `f` writes (defined for files whose
relative path exists, the only ones a run step processes). -/
def outPathOf (env : DriverEnv) (f : String) : String :=
  setExtTs (joinPath env.outDir ((relName env.srcDir f).getD ""))

/-- Whether parsing the contents of `f` succeeds. -/
def parseOkB (env : DriverEnv) (f : String) : Bool :=
  match env.parseDoc (env.contents f) with
  | .ok _ => true
  | .error _ => false

/-- The dependency paths the task for `f` would spawn. -/
def resolvedDeps (env : DriverEnv) (f : String) : List String :=
  match env.parseDoc (env.contents f) with
  | .ok doc => (collectDeps doc).map (fun dep => joinPath (parentDir f) dep)
  | .error _ => []

/-- Number of dependencies `f` spawns (zero when its parse fails). -/
def depCount (env : DriverEnv) (f : String) : Nat :=
  (resolvedDeps env f).length

/-- Task weight for the termination measure. -/
def taskW (env : DriverEnv) : Task → Nat
  | .pending _ => 2
  | .running f => 1 + 2 * depCount env f

/-- Termination measure: pending tasks cost 2, a running task carries the
cost of the tasks it may spawn, and every file of the universe `U` not yet
seen carries the cost its single admission can release. -/
def potential (env : DriverEnv) (U : List String) (s : DriverState) : Nat :=
  (s.tasks.map (taskW env)).sum +
    ((U.filter (fun f => !(s.seen.contains f))).map
      (fun f => 1 + 2 * depCount env f)).sum

/-- The invariant every state reachable from `initState` satisfies.  Its
fields record: the seen vector has no duplicates; for every path, the
number of running tasks plus completed reads is 0 outside the seen set
and at most 1 inside it (the mutex-guarded check-and-insert admits each
path once); every admission is accounted for by a read or a running task;
reads have happened only for seen files whose relative path exists;
every input and every dependency of a processed file has been spawned or
already admitted; writes correspond exactly to the reads that parsed
successfully; and the error channel holds exactly one formatted line per
read that failed to parse. -/
structure DInv (env : DriverEnv) (inputs : List String) (s : DriverState) : Prop where
  seenNodup : s.seen.Nodup
  onceBound : ∀ f : String,
    s.tasks.count (Task.running f) + s.reads.count f ≤ (if f ∈ s.seen then 1 else 0)
  sizeEq : s.seen.length = s.reads.length + s.tasks.countP Task.isRunning
  readsSeen : ∀ f ∈ s.reads, f ∈ s.seen
  readsRel : ∀ f ∈ s.reads, (relName env.srcDir f).isSome = true
  inputsSpawned : ∀ f ∈ inputs,
    joinPath env.srcDir f ∈ s.seen ∨ Task.pending (joinPath env.srcDir f) ∈ s.tasks
  depsSpawned : ∀ f ∈ s.reads, ∀ d ∈ resolvedDeps env f,
    d ∈ s.seen ∨ Task.pending d ∈ s.tasks
  writesChar : ∀ X : String, s.writes.countP (fun e => e.1 == X) =
    s.reads.countP (fun f => outPathOf env f == X && parseOkB env f)
  errsChar : ∀ e ∈ s.errs, ∃ f rel msg, f ∈ s.reads ∧
    relName env.srcDir f = some rel ∧
    env.parseDoc (env.contents f) = Except.error msg ∧ e = errLine rel msg
  errsCover : ∀ f ∈ s.reads, ∀ rel msg, relName env.srcDir f = some rel →
    env.parseDoc (env.contents f) = Except.error msg → errLine rel msg ∈ s.errs
  errsLen : s.errs.length = s.reads.countP (fun f => !(parseOkB env f))

/-- A concrete two-input environment in which both inputs include the same
third file (a diamond include graph), used to witness the driver claims. -/
def diamondEnv : DriverEnv :=
  { srcDir := "/s"
    outDir := "/o"
    contents := fun f => f
    parseDoc := fun code =>
      if code = "/s/a.thrift" then Except.ok ⟨[TopDefinition.Include ⟨⟨"c.thrift"⟩⟩]⟩
      else if code = "/s/b.thrift" then Except.ok ⟨[TopDefinition.Include ⟨⟨"c.thrift"⟩⟩]⟩
      else Except.ok ⟨[]⟩
    generate := fun _ => "out" }

/-- The terminal state of one full schedule of `compile` on `diamondEnv`. -/
def diamondFinal : DriverState :=
  { seen := ["/s/a.thrift", "/s/b.thrift", "/s/c.thrift"]
    tasks := []
    reads := ["/s/a.thrift", "/s/b.thrift", "/s/c.thrift"]
    writes := [("/o/a.ts", "out"), ("/o/b.ts", "out"), ("/o/c.ts", "out")]
    errs := [] }

/-- A concrete cyclic environment: A includes B and B includes A. -/
def cycleEnv : DriverEnv :=
  { srcDir := "/s"
    outDir := "/o"
    contents := fun f => f
    parseDoc := fun code =>
      if code = "/s/a.thrift" then Except.ok ⟨[TopDefinition.Include ⟨⟨"b.thrift"⟩⟩]⟩
      else if code = "/s/b.thrift" then Except.ok ⟨[TopDefinition.Include ⟨⟨"a.thrift"⟩⟩]⟩
      else Except.ok ⟨[]⟩
    generate := fun _ => "out" }

/-- The terminal state of one full schedule of `compile` on `cycleEnv`. -/
def cycleFinal : DriverState :=
  { seen := ["/s/a.thrift", "/s/b.thrift"]
    tasks := []
    reads := ["/s/a.thrift", "/s/b.thrift"]
    writes := [("/o/a.ts", "out"), ("/o/b.ts", "out")]
    errs := [] }

/-- A concrete environment in which the included third file fails to
parse. -/
def failEnv : DriverEnv :=
  { srcDir := "/s"
    outDir := "/o"
    contents := fun f => f
    parseDoc := fun code =>
      if code = "/s/a.thrift" then Except.ok ⟨[TopDefinition.Include ⟨⟨"c.thrift"⟩⟩]⟩
      else if code = "/s/c.thrift" then Except.error "boom"
      else Except.ok ⟨[]⟩
    generate := fun _ => "out" }

/-- The terminal state of one full schedule of `compile` on `failEnv`. -/
def failFinal : DriverState :=
  { seen := ["/s/a.thrift", "/s/c.thrift"]
    tasks := []
    reads := ["/s/a.thrift", "/s/c.thrift"]
    writes := [("/o/a.ts", "out")]
    errs := ["Compiler failed: c.thrift. boom"] }

/-! Consumption lemmas for the nom combinators: every parser of the source
returns a suffix of its input (`Mono`), and the token-level parsers that
must make progress do so (`Strict`).  These drive the totality of the
`many0` loops. -/

namespace Nom

theorem strict_mono {α : Type} {p : Parser α} (h : Strict p) : Mono p :=
  fun i rest v hh => Nat.le_of_lt (h i rest v hh)

theorem length_dropWhile_le (p : Char → Bool) (l : List Char) :
    (l.dropWhile p).length ≤ l.length := by
  induction l with
  | nil => simp
  | cons a l ih =>
    rw [List.dropWhile_cons]
    split
    · exact Nat.le_succ_of_le ih
    · exact Nat.le_refl _

theorem pre_length {t i : List Char} (h : pre t i = true) : t.length ≤ i.length := by
  induction t generalizing i with
  | nil => simp
  | cons c cs ih =>
    cases i with
    | nil => simp [pre] at h
    | cons d ds =>
      simp only [pre, Bool.and_eq_true] at h
      simpa using ih h.2

theorem mono_tag (t : List Char) : Mono (tag t) := by
  intro i rest v h
  unfold tag at h
  split at h
  · injection h with h1 h2
    subst h1
    simp only [List.length_drop]
    omega
  · exact PResult.noConfusion h

theorem strict_tag {t : List Char} (ht : t ≠ []) : Strict (tag t) := by
  intro i rest v h
  unfold tag at h
  split at h
  next hp =>
    injection h with h1 h2
    subst h1
    have hl := pre_length hp
    have ht0 : 0 < t.length := List.length_pos.mpr ht
    simp only [List.length_drop]
    omega
  next => exact PResult.noConfusion h

theorem strict_char (c : Char) : Strict (char c) := by
  intro i rest v h
  cases i with
  | nil => exact PResult.noConfusion h
  | cons d ds =>
    simp only [char] at h
    split at h
    · injection h with h1 h2
      subst h1
      simp
    · exact PResult.noConfusion h

theorem strict_isNot (bad : List Char) : Strict (isNot bad) := by
  intro i rest v h
  simp only [isNot] at h
  split at h
  next => exact PResult.noConfusion h
  next he =>
    injection h with h1 h2
    subst h1
    cases i with
    | nil => simp at he
    | cons c cs =>
      rw [List.takeWhile_cons] at he
      rw [List.dropWhile_cons]
      split at he
      next hc =>
        rw [if_pos hc]
        exact Nat.lt_succ_of_le (length_dropWhile_le _ _)
      next => simp at he

theorem mono_takeTill (p : Char → Bool) : Mono (takeTill p) := by
  intro i rest v h
  unfold takeTill at h
  injection h with h1 h2
  subst h1
  exact length_dropWhile_le _ _

theorem mono_takeUntil (t : List Char) : Mono (takeUntil t) := by
  intro i rest v h
  unfold takeUntil at h
  split at h
  next => injection h with h1 h2; subst h1; simp only [List.length_drop]; omega
  next => exact PResult.noConfusion h

theorem strict_digit1 : Strict digit1 := by
  intro i rest v h
  simp only [digit1] at h
  split at h
  next => exact PResult.noConfusion h
  next he =>
    injection h with h1 h2
    subst h1
    cases i with
    | nil => simp at he
    | cons c cs =>
      rw [List.takeWhile_cons] at he
      rw [List.dropWhile_cons]
      split at he
      next hc =>
        rw [if_pos hc]
        exact Nat.lt_succ_of_le (length_dropWhile_le _ _)
      next => simp at he

theorem mono_multispace0 : Mono multispace0 := by
  intro i rest v h
  unfold multispace0 at h
  injection h with h1 h2
  subst h1
  exact length_dropWhile_le _ _

theorem mono_space0 : Mono space0 := by
  intro i rest v h
  unfold space0 at h
  injection h with h1 h2
  subst h1
  exact length_dropWhile_le _ _

theorem strict_space1 : Strict space1 := by
  intro i rest v h
  simp only [space1] at h
  split at h
  next => exact PResult.noConfusion h
  next he =>
    injection h with h1 h2
    subst h1
    cases i with
    | nil => simp at he
    | cons c cs =>
      rw [List.takeWhile_cons] at he
      rw [List.dropWhile_cons]
      split at he
      next hc =>
        rw [if_pos hc]
        exact Nat.lt_succ_of_le (length_dropWhile_le _ _)
      next => simp at he

theorem mono_pbind {α β : Type} {p : Parser α} {q : α → Parser β}
    (hp : Mono p) (hq : ∀ v, Mono (q v)) : Mono (pbind p q) := by
  intro i rest v h
  unfold pbind at h
  cases hpi : p i <;> rw [hpi] at h
  · exact Nat.le_trans (hq _ _ _ _ h) (hp _ _ _ hpi)
  · exact PResult.noConfusion h
  · exact PResult.noConfusion h

theorem strict_pbind_left {α β : Type} {p : Parser α} {q : α → Parser β}
    (hp : Strict p) (hq : ∀ v, Mono (q v)) : Strict (pbind p q) := by
  intro i rest v h
  unfold pbind at h
  cases hpi : p i <;> rw [hpi] at h
  · exact Nat.lt_of_le_of_lt (hq _ _ _ _ h) (hp _ _ _ hpi)
  · exact PResult.noConfusion h
  · exact PResult.noConfusion h

theorem strict_pbind_right {α β : Type} {p : Parser α} {q : α → Parser β}
    (hp : Mono p) (hq : ∀ v, Strict (q v)) : Strict (pbind p q) := by
  intro i rest v h
  unfold pbind at h
  cases hpi : p i <;> rw [hpi] at h
  · exact Nat.lt_of_lt_of_le (hq _ _ _ _ h) (hp _ _ _ hpi)
  · exact PResult.noConfusion h
  · exact PResult.noConfusion h

theorem mono_map {α β : Type} {p : Parser α} (f : α → β) (hp : Mono p) :
    Mono (map p f) := by
  intro i rest v h
  unfold map at h
  cases hpi : p i <;> rw [hpi] at h
  · injection h with h1 h2; subst h1; exact hp _ _ _ hpi
  · exact PResult.noConfusion h
  · exact PResult.noConfusion h

theorem strict_map {α β : Type} {p : Parser α} (f : α → β) (hp : Strict p) :
    Strict (map p f) := by
  intro i rest v h
  unfold map at h
  cases hpi : p i <;> rw [hpi] at h
  · injection h with h1 h2; subst h1; exact hp _ _ _ hpi
  · exact PResult.noConfusion h
  · exact PResult.noConfusion h

theorem mono_preceded {α β : Type} {p : Parser α} {q : Parser β}
    (hp : Mono p) (hq : Mono q) : Mono (preceded p q) :=
  mono_pbind hp (fun _ => hq)

theorem strict_preceded_left {α β : Type} {p : Parser α} {q : Parser β}
    (hp : Strict p) (hq : Mono q) : Strict (preceded p q) :=
  strict_pbind_left hp (fun _ => hq)

theorem strict_preceded_right {α β : Type} {p : Parser α} {q : Parser β}
    (hp : Mono p) (hq : Strict q) : Strict (preceded p q) :=
  strict_pbind_right hp (fun _ => hq)

theorem mono_seq {α β : Type} {p : Parser α} {q : Parser β}
    (hp : Mono p) (hq : Mono q) : Mono (seq p q) :=
  mono_pbind hp (fun _ => mono_map _ hq)

theorem strict_seq_left {α β : Type} {p : Parser α} {q : Parser β}
    (hp : Strict p) (hq : Mono q) : Strict (seq p q) :=
  strict_pbind_left hp (fun _ => mono_map _ hq)

theorem strict_seq_right {α β : Type} {p : Parser α} {q : Parser β}
    (hp : Mono p) (hq : Strict q) : Strict (seq p q) :=
  strict_pbind_right hp (fun _ => strict_map _ hq)

theorem mono_delimited {α β γ : Type} {a : Parser α} {b : Parser β} {c : Parser γ}
    (ha : Mono a) (hb : Mono b) (hc : Mono c) : Mono (delimited a b c) :=
  mono_pbind ha (fun _ => mono_pbind hb (fun _ => mono_map _ hc))

theorem strict_delimited_left {α β γ : Type} {a : Parser α} {b : Parser β} {c : Parser γ}
    (ha : Strict a) (hb : Mono b) (hc : Mono c) : Strict (delimited a b c) :=
  strict_pbind_left ha (fun _ => mono_pbind hb (fun _ => mono_map _ hc))

theorem mono_separated_pair {α β γ : Type} {a : Parser α} {s : Parser γ} {b : Parser β}
    (ha : Mono a) (hs : Mono s) (hb : Mono b) : Mono (separated_pair a s b) :=
  mono_pbind ha (fun _ => mono_pbind hs (fun _ => mono_map _ hb))

theorem mono_opt {α : Type} {p : Parser α} (hp : Mono p) : Mono (opt p) := by
  intro i rest v h
  unfold opt at h
  cases hpi : p i <;> rw [hpi] at h
  · injection h with h1 h2; subst h1; exact hp _ _ _ hpi
  · injection h with h1 h2; subst h1; exact Nat.le_refl _
  · exact PResult.noConfusion h

theorem mono_alt {α : Type} {ps : List (Parser α)}
    (hall : ∀ p ∈ ps, Mono p) : Mono (alt ps) := by
  induction ps with
  | nil => intro i rest v h; exact PResult.noConfusion h
  | cons p ps ih =>
    intro i rest v h
    unfold alt at h
    cases hpi : p i <;> rw [hpi] at h
    · injection h with h1 h2
      subst h1
      exact hall p (List.mem_cons_self p ps) _ _ _ hpi
    · exact ih (fun q hq => hall q (List.mem_cons_of_mem p hq)) _ _ _ h
    · exact PResult.noConfusion h

theorem strict_alt {α : Type} {ps : List (Parser α)}
    (hall : ∀ p ∈ ps, Strict p) : Strict (alt ps) := by
  induction ps with
  | nil => intro i rest v h; exact PResult.noConfusion h
  | cons p ps ih =>
    intro i rest v h
    unfold alt at h
    cases hpi : p i <;> rw [hpi] at h
    · injection h with h1 h2
      subst h1
      exact hall p (List.mem_cons_self p ps) _ _ _ hpi
    · exact ih (fun q hq => hall q (List.mem_cons_of_mem p hq)) _ _ _ h
    · exact PResult.noConfusion h

theorem mono_many0Go {α : Type} {p : Parser α} (hp : Mono p) :
    ∀ fuel i rest vs, many0Go p fuel i = .ok rest vs → rest.length ≤ i.length := by
  intro fuel
  induction fuel with
  | zero => intro i rest vs h; exact PResult.noConfusion h
  | succ n ih =>
    intro i rest vs h
    cases hpi : p i
    case ok i1 v =>
      simp only [many0Go, hpi] at h
      split at h
      · exact PResult.noConfusion h
      · cases hrec : many0Go p n i1
        case ok rest2 vs2 =>
          rw [hrec] at h
          injection h with h1 h2
          subst h1
          exact Nat.le_trans (ih _ _ _ hrec) (hp _ _ _ hpi)
        case fail => rw [hrec] at h; exact PResult.noConfusion h
        case panic => rw [hrec] at h; exact PResult.noConfusion h
    case fail =>
      simp only [many0Go, hpi] at h
      injection h with h1 h2
      subst h1
      exact Nat.le_refl _
    case panic =>
      simp only [many0Go, hpi] at h
      exact PResult.noConfusion h

theorem mono_many0 {α : Type} {p : Parser α} (hp : Mono p) : Mono (many0 p) := by
  intro i rest v h
  exact mono_many0Go hp _ _ _ _ h

theorem mono_sepList1Go {α γ : Type} {s : Parser γ} {p : Parser α}
    (hs : Mono s) (hp : Mono p) :
    ∀ fuel i rest vs, sepList1Go s p fuel i = .ok rest vs → rest.length ≤ i.length := by
  intro fuel
  induction fuel with
  | zero => intro i rest vs h; exact PResult.noConfusion h
  | succ n ih =>
    intro i rest vs h
    cases hsi : s i
    case ok i1 w =>
      simp only [sepList1Go, hsi] at h
      split at h
      · exact PResult.noConfusion h
      · cases hpi : p i1
        case ok i2 v =>
          simp only [hpi] at h
          cases hrec : sepList1Go s p n i2
          case ok rest2 vs2 =>
            simp only [hrec] at h
            injection h with h1 h2
            subst h1
            exact Nat.le_trans (Nat.le_trans (ih _ _ _ hrec) (hp _ _ _ hpi))
              (hs _ _ _ hsi)
          case fail => simp only [hrec] at h; exact PResult.noConfusion h
          case panic => simp only [hrec] at h; exact PResult.noConfusion h
        case fail =>
          simp only [hpi] at h
          injection h with h1 h2
          subst h1
          exact Nat.le_refl _
        case panic => simp only [hpi] at h; exact PResult.noConfusion h
    case fail =>
      simp only [sepList1Go, hsi] at h
      injection h with h1 h2
      subst h1
      exact Nat.le_refl _
    case panic =>
      simp only [sepList1Go, hsi] at h
      exact PResult.noConfusion h

theorem mono_separated_list1 {α γ : Type} {s : Parser γ} {p : Parser α}
    (hs : Mono s) (hp : Mono p) : Mono (separated_list1 s p) := by
  intro i rest v h
  cases hpi : p i
  case ok i1 w =>
    simp only [separated_list1, hpi] at h
    cases hrec : sepList1Go s p (i1.length + 1) i1
    case ok rest2 vs2 =>
      rw [hrec] at h
      injection h with h1 h2
      subst h1
      exact Nat.le_trans (mono_sepList1Go hs hp _ _ _ _ hrec) (hp _ _ _ hpi)
    case fail => rw [hrec] at h; exact PResult.noConfusion h
    case panic => rw [hrec] at h; exact PResult.noConfusion h
  case fail =>
    simp only [separated_list1, hpi] at h
    exact PResult.noConfusion h
  case panic =>
    simp only [separated_list1, hpi] at h
    exact PResult.noConfusion h

/-- The `many0` loop of nom is total when the inner parser consumes on
success: it returns `ok` unless the inner parser panics. -/
theorem many0Go_total {α : Type} {p : Parser α} (hp : Strict p) :
    ∀ fuel i, i.length < fuel →
      (∃ rest vs, many0Go p fuel i = .ok rest vs) ∨ many0Go p fuel i = .panic := by
  intro fuel
  induction fuel with
  | zero => intro i hi; exact absurd hi (Nat.not_lt_zero _)
  | succ n ih =>
    intro i hi
    cases hpi : p i
    case fail =>
      left
      exact ⟨i, [], by simp [many0Go, hpi]⟩
    case panic =>
      right
      simp [many0Go, hpi]
    case ok i1 v =>
      have hlt : i1.length < i.length := hp _ _ _ hpi
      have hne : (i1.length == i.length) = false := by
        simp only [beq_eq_false_iff_ne, ne_eq]
        omega
      rcases ih i1 (by omega) with ⟨rest, vs, hrec⟩ | hrec
      · left
        exact ⟨rest, v :: vs, by simp [many0Go, hpi, hne, hrec]⟩
      · right
        simp [many0Go, hpi, hne, hrec]

theorem many0_total {α : Type} {p : Parser α} (hp : Strict p) (i : List Char) :
    (∃ rest vs, many0 p i = .ok rest vs) ∨ many0 p i = .panic :=
  many0Go_total hp _ i (Nat.lt_succ_self _)

theorem mono_alt_nil {α : Type} : Mono (alt ([] : List (Parser α))) :=
  fun _ _ _ h => PResult.noConfusion h

theorem mono_alt_cons {α : Type} {p : Parser α} {ps : List (Parser α)}
    (hp : Mono p) (hps : Mono (alt ps)) : Mono (alt (p :: ps)) := by
  intro i rest v h
  unfold alt at h
  cases hpi : p i
  case ok i1 w =>
    simp only [hpi] at h
    injection h with h1 h2
    subst h1
    exact hp _ _ _ hpi
  case fail =>
    simp only [hpi] at h
    exact hps _ _ _ h
  case panic =>
    simp only [hpi] at h
    exact PResult.noConfusion h

theorem strict_alt_nil {α : Type} : Strict (alt ([] : List (Parser α))) :=
  fun _ _ _ h => PResult.noConfusion h

theorem strict_alt_cons {α : Type} {p : Parser α} {ps : List (Parser α)}
    (hp : Strict p) (hps : Strict (alt ps)) : Strict (alt (p :: ps)) := by
  intro i rest v h
  unfold alt at h
  cases hpi : p i
  case ok i1 w =>
    simp only [hpi] at h
    injection h with h1 h2
    subst h1
    exact hp _ _ _ hpi
  case fail =>
    simp only [hpi] at h
    exact hps _ _ _ h
  case panic =>
    simp only [hpi] at h
    exact PResult.noConfusion h

end Nom

/-! Consumption facts for each parser of `src/lib.rs`. -/

theorem strict_identifier : Nom.Strict identifier :=
  Nom.strict_map _ (Nom.strict_preceded_right Nom.mono_multispace0 (Nom.strict_isNot _))

theorem mono_identifier : Nom.Mono identifier :=
  Nom.strict_mono strict_identifier

theorem strict_string_literal : Nom.Strict string_literal :=
  Nom.strict_map _ (Nom.strict_delimited_left (Nom.strict_char _) (Nom.mono_takeTill _)
    (Nom.strict_mono (Nom.strict_char _)))

theorem mono_string_literal : Nom.Mono string_literal :=
  Nom.strict_mono strict_string_literal

theorem strict_namespace_definition : Nom.Strict namespace_definition :=
  Nom.strict_map _ (Nom.strict_preceded_right Nom.mono_multispace0
    (Nom.strict_seq_left (Nom.strict_tag (by decide))
      (Nom.mono_seq (Nom.strict_mono Nom.strict_space1)
        (Nom.mono_seq mono_identifier mono_identifier))))

theorem strict_include_definition : Nom.Strict include_definition :=
  Nom.strict_map _ (Nom.strict_preceded_right Nom.mono_multispace0
    (Nom.strict_seq_left (Nom.strict_tag (by decide))
      (Nom.mono_seq (Nom.strict_mono Nom.strict_space1) mono_string_literal)))

theorem mono_field_id : Nom.Mono field_id := by
  intro i rest v h
  unfold field_id at h
  cases hd : Nom.delimited Nom.multispace0 Nom.digit1 (Nom.tag ":".data) i
  case ok rest2 v2 =>
    simp only [hd] at h
    split at h
    · injection h with h1 h2
      subst h1
      exact Nom.mono_delimited Nom.mono_multispace0 (Nom.strict_mono Nom.strict_digit1)
        (Nom.mono_tag _) _ _ _ hd
    · exact Nom.PResult.noConfusion h
  case fail => simp only [hd] at h; exact Nom.PResult.noConfusion h
  case panic => simp only [hd] at h; exact Nom.PResult.noConfusion h

theorem mono_requiredness : Nom.Mono requiredness :=
  Nom.mono_map _ (Nom.mono_preceded (Nom.strict_mono Nom.strict_space1)
    (Nom.mono_alt_cons (Nom.mono_tag _) (Nom.mono_alt_cons (Nom.mono_tag _) Nom.mono_alt_nil)))

theorem mono_annot : Nom.Mono annot :=
  Nom.mono_map _ (Nom.mono_separated_pair mono_identifier
    (Nom.mono_delimited Nom.mono_space0 (Nom.mono_tag _) Nom.mono_space0)
    mono_string_literal)

theorem mono_annots : Nom.Mono annots :=
  Nom.mono_map _ (Nom.mono_preceded Nom.mono_space0
    (Nom.mono_delimited (Nom.mono_tag _)
      (Nom.mono_separated_list1 (Nom.mono_tag _) mono_annot) (Nom.mono_tag _)))

theorem mono_list_typeOf {ty : Nom.Parser ThriftType} (h : Nom.Mono ty) :
    Nom.Mono (list_typeOf ty) :=
  Nom.mono_preceded (Nom.mono_tag _)
    (Nom.mono_delimited (Nom.strict_mono (Nom.strict_char _)) h
      (Nom.strict_mono (Nom.strict_char _)))

theorem mono_map_typeOf {ty : Nom.Parser ThriftType} (h : Nom.Mono ty) :
    Nom.Mono (map_typeOf ty) :=
  Nom.mono_preceded (Nom.mono_tag _)
    (Nom.mono_delimited (Nom.strict_mono (Nom.strict_char _))
      (Nom.mono_separated_pair h
        (Nom.mono_delimited Nom.mono_space0 (Nom.mono_tag _) Nom.mono_space0) h)
      (Nom.strict_mono (Nom.strict_char _)))

theorem mono_thrift_typeF : ∀ n, Nom.Mono (thrift_typeF n) := by
  intro n
  induction n with
  | zero => intro i rest v h; exact Nom.PResult.noConfusion h
  | succ n ih =>
    show Nom.Mono (Nom.preceded Nom.space0 (Nom.alt _))
    refine Nom.mono_preceded Nom.mono_space0 ?_
    refine Nom.mono_alt_cons (Nom.mono_map _ (Nom.mono_tag _)) ?_
    refine Nom.mono_alt_cons (Nom.mono_map _ (Nom.mono_tag _)) ?_
    refine Nom.mono_alt_cons (Nom.mono_map _ (Nom.mono_tag _)) ?_
    refine Nom.mono_alt_cons (Nom.mono_map _ (Nom.mono_tag _)) ?_
    refine Nom.mono_alt_cons (Nom.mono_map _ (Nom.mono_tag _)) ?_
    refine Nom.mono_alt_cons (Nom.mono_map _ (Nom.mono_tag _)) ?_
    refine Nom.mono_alt_cons (Nom.mono_map _ (Nom.mono_tag _)) ?_
    refine Nom.mono_alt_cons (Nom.mono_map _ (mono_list_typeOf ih)) ?_
    refine Nom.mono_alt_cons (Nom.mono_map _ (mono_map_typeOf ih)) ?_
    exact Nom.mono_alt_cons (Nom.mono_map _ mono_identifier) Nom.mono_alt_nil

theorem mono_thrift_type : Nom.Mono thrift_type := by
  intro i rest v h
  exact mono_thrift_typeF _ _ _ _ h

theorem strict_comment_line : Nom.Strict comment_line :=
  Nom.strict_map _ (Nom.strict_preceded_right Nom.mono_multispace0
    (Nom.strict_preceded_left (Nom.strict_tag (by decide)) (Nom.mono_takeTill _)))

theorem strict_comment_block : Nom.Strict comment_block :=
  Nom.strict_map _ (Nom.strict_preceded_right Nom.mono_multispace0
    (Nom.strict_delimited_left (Nom.strict_tag (by decide)) (Nom.mono_takeUntil _)
      (Nom.mono_tag _)))

theorem strict_comment : Nom.Strict comment :=
  Nom.strict_alt_cons (Nom.strict_map _ strict_comment_line)
    (Nom.strict_alt_cons (Nom.strict_map _ strict_comment_block) Nom.strict_alt_nil)

theorem mono_comment : Nom.Mono comment :=
  Nom.strict_mono strict_comment

theorem mono_comment_inline : Nom.Mono comment_inline :=
  Nom.mono_map _ (Nom.mono_preceded Nom.mono_space0
    (Nom.mono_preceded (Nom.mono_tag _) (Nom.mono_takeTill _)))

theorem mono_field_definition : Nom.Mono field_definition :=
  Nom.mono_map _ (Nom.mono_seq (Nom.mono_many0 mono_comment)
    (Nom.mono_seq mono_field_id
      (Nom.mono_seq (Nom.mono_opt mono_requiredness)
        (Nom.mono_seq mono_thrift_type
          (Nom.mono_seq mono_identifier
            (Nom.mono_seq (Nom.mono_opt mono_annots) (Nom.mono_opt mono_comment_inline)))))))

theorem strict_struct_definition_without_comments :
    Nom.Strict struct_definition_without_comments :=
  Nom.strict_map _ (Nom.strict_preceded_right Nom.mono_multispace0
    (Nom.strict_preceded_left (Nom.strict_tag (by decide))
      (Nom.mono_seq mono_identifier
        (Nom.mono_delimited (Nom.mono_preceded Nom.mono_multispace0 (Nom.mono_tag _))
          (Nom.mono_many0 mono_field_definition)
          (Nom.mono_preceded Nom.mono_multispace0 (Nom.mono_tag _))))))

theorem strict_struct_definition : Nom.Strict struct_definition :=
  Nom.strict_map _ (Nom.strict_preceded_right Nom.mono_multispace0
    (Nom.strict_seq_right (Nom.mono_many0 mono_comment)
      strict_struct_definition_without_comments))

theorem mono_enum_member : Nom.Mono enum_member :=
  Nom.mono_map _ (Nom.mono_seq (Nom.mono_many0 mono_comment)
    (Nom.mono_seq
      (Nom.mono_seq mono_identifier
        (Nom.mono_opt (Nom.mono_preceded
          (Nom.mono_delimited Nom.mono_space0 (Nom.mono_tag _) Nom.mono_space0)
          (Nom.strict_mono Nom.strict_digit1))))
      (Nom.mono_opt mono_comment_inline)))

theorem strict_enum_definition_without_comments :
    Nom.Strict enum_definition_without_comments :=
  Nom.strict_map _ (Nom.strict_preceded_right Nom.mono_multispace0
    (Nom.strict_preceded_left (Nom.strict_tag (by decide))
      (Nom.mono_seq mono_identifier
        (Nom.mono_delimited (Nom.mono_preceded Nom.mono_multispace0 (Nom.mono_tag _))
          (Nom.mono_many0 mono_enum_member)
          (Nom.mono_preceded Nom.mono_multispace0 (Nom.mono_tag _))))))

theorem strict_enum_definition : Nom.Strict enum_definition :=
  Nom.strict_map _ (Nom.strict_preceded_right Nom.mono_multispace0
    (Nom.strict_seq_right (Nom.mono_many0 mono_comment)
      strict_enum_definition_without_comments))

theorem mono_function_definition_without_comments :
    Nom.Mono function_definition_without_comments :=
  Nom.mono_map _ (Nom.mono_preceded Nom.mono_multispace0
    (Nom.mono_seq mono_thrift_type
      (Nom.mono_seq mono_identifier
        (Nom.mono_seq
          (Nom.mono_delimited (Nom.mono_preceded Nom.mono_space0 (Nom.mono_tag _))
            (Nom.mono_many0 mono_field_definition) (Nom.mono_tag _))
          (Nom.mono_opt mono_annots)))))

theorem mono_function_definition : Nom.Mono function_definition :=
  Nom.mono_map _ (Nom.mono_preceded Nom.mono_multispace0
    (Nom.mono_seq (Nom.mono_many0 mono_comment)
      mono_function_definition_without_comments))

theorem strict_service_definition_without_comments :
    Nom.Strict service_definition_without_comments :=
  Nom.strict_map _ (Nom.strict_preceded_right Nom.mono_multispace0
    (Nom.strict_preceded_left (Nom.strict_tag (by decide))
      (Nom.mono_seq mono_identifier
        (Nom.mono_delimited (Nom.mono_preceded Nom.mono_multispace0 (Nom.mono_tag _))
          (Nom.mono_many0 mono_function_definition)
          (Nom.mono_preceded Nom.mono_multispace0 (Nom.mono_tag _))))))

theorem strict_service_definition : Nom.Strict service_definition :=
  Nom.strict_map _ (Nom.strict_preceded_right Nom.mono_multispace0
    (Nom.strict_seq_right (Nom.mono_many0 mono_comment)
      strict_service_definition_without_comments))

/-- Every top-level alternative consumes input when it succeeds: this is
why the top-level `many0` loop never trips nom's zero-consumption error. -/
theorem strict_top_definition : Nom.Strict top_definition :=
  Nom.strict_alt_cons (Nom.strict_map _ strict_namespace_definition)
    (Nom.strict_alt_cons (Nom.strict_map _ strict_include_definition)
      (Nom.strict_alt_cons (Nom.strict_map _ strict_struct_definition)
        (Nom.strict_alt_cons (Nom.strict_map _ strict_enum_definition)
          (Nom.strict_alt_cons (Nom.strict_map _ strict_service_definition)
            Nom.strict_alt_nil))))

/-! Claim theorems for the parser. -/

/-- C5: the type parser satisfies the grammar examples —
`thrift_type("list<a.A>")` is `List(Identifier "a.A")`,
`thrift_type("map<string,string>")` is `Map(String, String)`, and generic
types nested to depth 3 parse successfully (shown for a `map` of a `list`
of a `map`, and for a triple `list`). -/
theorem C5_type_grammar :
    thrift_type "list<a.A>".data =
      Nom.PResult.ok [] (ThriftType.List (ThriftType.Identifier ⟨"a.A"⟩)) ∧
    thrift_type "map<string,string>".data =
      Nom.PResult.ok [] (ThriftType.Map ThriftType.String ThriftType.String) ∧
    thrift_type "map<string, list<map<i64, bool>>>".data =
      Nom.PResult.ok []
        (ThriftType.Map ThriftType.String
          (ThriftType.List (ThriftType.Map ThriftType.I64 ThriftType.Bool))) ∧
    thrift_type "list<list<list<i32>>>".data =
      Nom.PResult.ok []
        (ThriftType.List (ThriftType.List (ThriftType.List ThriftType.I32))) := by
  refine ⟨by decide, by decide, by decide, by decide⟩

/-- C7 counterexample: parsing `struct X { 1: string }` does not fail with
a parse error — `parse_thrift_document` returns `Ok` with an empty body
and the entire input as remaining text, because the failing `struct`
alternative is swallowed by the top-level `many0`. -/
theorem C7_counterexample :
    parse_thrift_document "struct X \x7b 1: string \x7d".data =
      Nom.PResult.ok "struct X \x7b 1: string \x7d".data ⟨[]⟩ := by decide

/-- C7 (amended): on `struct X { 1: string }` (missing field name) the
struct production itself fails, but `parse_thrift_document` does not
return a parse error: the top-level `many0` swallows the failure and
returns `Ok` with an empty document body and the entire input left over,
and the parser does not panic on this input. -/
theorem C7_amended :
    struct_definition_without_comments "struct X \x7b 1: string \x7d".data =
      Nom.PResult.fail ∧
    struct_definition "struct X \x7b 1: string \x7d".data = Nom.PResult.fail ∧
    parse_thrift_document "struct X \x7b 1: string \x7d".data =
      Nom.PResult.ok "struct X \x7b 1: string \x7d".data ⟨[]⟩ :=
  ⟨by decide, by decide, by decide⟩

/-- C9 counterexample: `parse_thrift_document` does not return `Ok` on
every input — a field id whose digit string exceeds `usize::MAX` makes
`field_id`'s `parse::<usize>().unwrap()` panic, and the panic unwinds
through the whole document parser. -/
theorem C9_counterexample :
    parse_thrift_document "struct S \x7b 99999999999999999999: i32 x \x7d".data =
      Nom.PResult.panic := by decide

/-- C9 (amended): `parse_thrift_document` never returns a parse error —
for every input it either returns `Ok` (the top-level `many0` stops at the
first text matching no alternative, leaving it as remaining input) or
panics on a field-id literal exceeding `usize::MAX`. -/
theorem C9_never_parse_error :
    (∀ i : List Char, parse_thrift_document i ≠ Nom.PResult.fail) ∧
    (∀ i : List Char,
      (∃ rest doc, parse_thrift_document i = Nom.PResult.ok rest doc) ∨
        parse_thrift_document i = Nom.PResult.panic) := by
  have key : ∀ i : List Char,
      (∃ rest doc, parse_thrift_document i = Nom.PResult.ok rest doc) ∨
        parse_thrift_document i = Nom.PResult.panic := by
    intro i
    rcases Nom.many0_total strict_top_definition i with ⟨rest, vs, h⟩ | h
    · left
      exact ⟨rest, ⟨vs⟩, by simp [parse_thrift_document, Nom.map, h]⟩
    · right
      simp [parse_thrift_document, Nom.map, h]
  constructor
  · intro i hfail
    rcases key i with ⟨rest, doc, h⟩ | h
    · rw [h] at hfail; exact Nom.PResult.noConfusion hfail
    · rw [h] at hfail; exact Nom.PResult.noConfusion hfail
  · exact key

/-- Evaluation of one level of the fueled type parser: skip horizontal
whitespace, then try the alternatives. -/
theorem thrift_typeF_eval (n : Nat) (i : List Char) :
    thrift_typeF (n + 1) i = Nom.alt [
      Nom.map (Nom.tag "void".data) (fun _ => ThriftType.Void),
      Nom.map (Nom.tag "string".data) (fun _ => ThriftType.String),
      Nom.map (Nom.tag "i16".data) (fun _ => ThriftType.I16),
      Nom.map (Nom.tag "i32".data) (fun _ => ThriftType.I32),
      Nom.map (Nom.tag "i64".data) (fun _ => ThriftType.I64),
      Nom.map (Nom.tag "double".data) (fun _ => ThriftType.Double),
      Nom.map (Nom.tag "bool".data) (fun _ => ThriftType.Bool),
      Nom.map (list_typeOf (thrift_typeF n)) ThriftType.List,
      Nom.map (map_typeOf (thrift_typeF n)) (fun v => ThriftType.Map v.1 v.2),
      Nom.map identifier ThriftType.Identifier] (i.dropWhile Nom.isHS) := by
  simp only [thrift_typeF, Nom.preceded, Nom.pbind, Nom.space0]

/-- C6: `list` and `map` are not reserved — whenever the token at the
parse position (after `space0`) is `list` or `map` not immediately
followed by `<`, the `list_type`/`map_type` alternative fails without
producing a `List`/`Map`, and `thrift_type` parses the token through the
identifier fallback as an `Identifier` type. -/
theorem C6_list_map_fallback :
    (∀ (i rest : List Char),
      i.dropWhile Nom.isHS = 'l' :: 'i' :: 's' :: 't' :: rest →
      rest.head? ≠ some '<' →
      list_type (i.dropWhile Nom.isHS) = Nom.PResult.fail ∧
      ∃ rest2 v, thrift_type i = Nom.PResult.ok rest2 (ThriftType.Identifier v)) ∧
    (∀ (i rest : List Char),
      i.dropWhile Nom.isHS = 'm' :: 'a' :: 'p' :: rest →
      rest.head? ≠ some '<' →
      map_type (i.dropWhile Nom.isHS) = Nom.PResult.fail ∧
      ∃ rest2 v, thrift_type i = Nom.PResult.ok rest2 (ThriftType.Identifier v)) := by
  have hlist : "list".data = ['l', 'i', 's', 't'] := rfl
  have hmap : "map".data = ['m', 'a', 'p'] := rfl
  constructor
  · intro i rest hdrop hne
    constructor
    · rw [hdrop]
      cases rest with
      | nil => decide
      | cons c rest2 =>
        have hc : ¬(c = '<') := fun hcc => hne (by simp [hcc])
        simp [list_type, list_typeOf, Nom.preceded, Nom.pbind, Nom.tag, Nom.pre,
          Nom.delimited, Nom.char, hlist, hc]
    · rw [show thrift_type i = thrift_typeF (i.length + 1) i from rfl,
        thrift_typeF_eval, hdrop]
      cases rest with
      | nil =>
        simp [Nom.alt, Nom.map, Nom.tag, Nom.pre, hlist, Nom.char,
          list_typeOf, map_typeOf, Nom.preceded, Nom.pbind, Nom.delimited,
          identifier, Nom.multispace0, Nom.isNot, identChars, Nom.isMS]
      | cons c rest2 =>
        have hc : ¬(c = '<') := fun hcc => hne (by simp [hcc])
        simp [Nom.alt, Nom.map, Nom.tag, Nom.pre, hlist, Nom.char, hc,
          list_typeOf, map_typeOf, Nom.preceded, Nom.pbind, Nom.delimited,
          identifier, Nom.multispace0, Nom.isNot, identChars, Nom.isMS]
  · intro i rest hdrop hne
    constructor
    · rw [hdrop]
      cases rest with
      | nil => decide
      | cons c rest2 =>
        have hc : ¬(c = '<') := fun hcc => hne (by simp [hcc])
        simp [map_type, map_typeOf, Nom.preceded, Nom.pbind, Nom.tag, Nom.pre,
          Nom.delimited, Nom.char, hmap, hc]
    · rw [show thrift_type i = thrift_typeF (i.length + 1) i from rfl,
        thrift_typeF_eval, hdrop]
      cases rest with
      | nil =>
        simp [Nom.alt, Nom.map, Nom.tag, Nom.pre, hmap, Nom.char,
          list_typeOf, map_typeOf, Nom.preceded, Nom.pbind, Nom.delimited,
          identifier, Nom.multispace0, Nom.isNot, identChars, Nom.isMS]
      | cons c rest2 =>
        have hc : ¬(c = '<') := fun hcc => hne (by simp [hcc])
        simp [Nom.alt, Nom.map, Nom.tag, Nom.pre, hmap, Nom.char, hc,
          list_typeOf, map_typeOf, Nom.preceded, Nom.pbind, Nom.delimited,
          identifier, Nom.multispace0, Nom.isNot, identChars, Nom.isMS]

/-- Witness for C6 at the inputs `list>` and `map>`. -/
theorem C6_list_map_fallback_witness :
    ("list>".data.dropWhile Nom.isHS = 'l' :: 'i' :: 's' :: 't' :: ['>']) ∧
    (['>'].head? ≠ some '<') ∧
    (list_type ("list>".data.dropWhile Nom.isHS) = Nom.PResult.fail ∧
      ∃ rest2 v, thrift_type "list>".data = Nom.PResult.ok rest2 (ThriftType.Identifier v)) ∧
    ("map>".data.dropWhile Nom.isHS = 'm' :: 'a' :: 'p' :: ['>']) ∧
    (map_type ("map>".data.dropWhile Nom.isHS) = Nom.PResult.fail ∧
      ∃ rest2 v, thrift_type "map>".data = Nom.PResult.ok rest2 (ThriftType.Identifier v)) :=
  ⟨by decide, by decide,
    C6_list_map_fallback.1 "list>".data ['>'] (by decide) (by decide),
    by decide,
    C6_list_map_fallback.2 "map>".data ['>'] (by decide) (by decide)⟩

/-- C4: comment attachment on fields — when a field's source text is
preceded by the comments `cs` (as read by `many0(comment)`) and the field
ends with an inline line comment `c` on the same logical line, the parsed
field's `comments` list is exactly `cs ++ [c]`: the leading comments
first, in source order, with the inline comment appended last, of length
`k + 1` for `k` leading comments. -/
theorem C4_comment_attachment
    (i i1 i2 i3 i4 i5 i6 i7 : List Char) (cs : List Comment) (fid : FieldId)
    (req : Option Requiredness) (ty : ThriftType) (nm : Identifier)
    (ann : Option Annots) (c : Comment)
    (h0 : Nom.many0 comment i = Nom.PResult.ok i1 cs)
    (h1 : field_id i1 = Nom.PResult.ok i2 fid)
    (h2 : Nom.opt requiredness i2 = Nom.PResult.ok i3 req)
    (h3 : thrift_type i3 = Nom.PResult.ok i4 ty)
    (h4 : identifier i4 = Nom.PResult.ok i5 nm)
    (h5 : Nom.opt annots i5 = Nom.PResult.ok i6 ann)
    (h6 : comment_inline i6 = Nom.PResult.ok i7 c) :
    field_definition i = Nom.PResult.ok i7
      { field_id := fid, requiredness := req, field_type := ty, name := nm,
        comments := cs ++ [c], annots := ann } ∧
    (cs ++ [c]).length = cs.length + 1 := by
  constructor
  · have h6o : Nom.opt comment_inline i6 = Nom.PResult.ok i7 (some c) := by
      simp [Nom.opt, h6]
    simp [field_definition, Nom.map, Nom.seq, Nom.pbind, h0, h1, h2, h3, h4, h5, h6o]
  · simp

/-- Witness for C4 at a field with one leading comment and an inline
comment. -/
theorem C4_comment_attachment_witness :
    Nom.many0 comment " // a\n 1: string x // c".data =
      Nom.PResult.ok "\n 1: string x // c".data [Comment.Line ⟨"a"⟩] ∧
    field_id "\n 1: string x // c".data = Nom.PResult.ok " string x // c".data ⟨1⟩ ∧
    Nom.opt requiredness " string x // c".data =
      Nom.PResult.ok " string x // c".data none ∧
    thrift_type " string x // c".data = Nom.PResult.ok " x // c".data ThriftType.String ∧
    identifier " x // c".data = Nom.PResult.ok " // c".data ⟨"x"⟩ ∧
    Nom.opt annots " // c".data = Nom.PResult.ok " // c".data none ∧
    comment_inline " // c".data = Nom.PResult.ok [] (Comment.Line ⟨"c"⟩) ∧
    (field_definition " // a\n 1: string x // c".data = Nom.PResult.ok []
      { field_id := ⟨1⟩, requiredness := none, field_type := ThriftType.String,
        name := ⟨"x"⟩,
        comments := [Comment.Line ⟨"a"⟩] ++ [Comment.Line ⟨"c"⟩], annots := none } ∧
      ([Comment.Line ⟨"a"⟩] ++ [Comment.Line ⟨"c"⟩]).length =
        [Comment.Line ⟨"a"⟩].length + 1) :=
  ⟨by decide, by decide, by decide, by decide, by decide, by decide, by decide,
    C4_comment_attachment " // a\n 1: string x // c".data "\n 1: string x // c".data
      " string x // c".data " string x // c".data " x // c".data " // c".data
      " // c".data [] [Comment.Line ⟨"a"⟩] ⟨1⟩ none ThriftType.String ⟨"x"⟩ none
      (Comment.Line ⟨"c"⟩)
      (by decide) (by decide) (by decide) (by decide) (by decide) (by decide) (by decide)⟩

/-- C10: the comment accessors are partial — `line_value` returns the
stored string on a line comment and panics (modelled `none`) on a block
comment, and `block_value` symmetrically. -/
theorem C10_comment_accessors :
    (∀ v : CommentLine, (Comment.Line v).line_value = some v.value) ∧
    (∀ v : CommentBlock, (Comment.Block v).line_value = none) ∧
    (∀ v : CommentLine, (Comment.Line v).block_value = none) ∧
    (∀ v : CommentBlock, (Comment.Block v).block_value = some v.value) :=
  ⟨fun _ => rfl, fun _ => rfl, fun _ => rfl, fun _ => rfl⟩

/-! Claim theorems for the generator's enum emission (spec-modelled). -/

theorem enumConstEntriesFrom_eq (idx : Nat) (ms : List EnumMember) :
    enumConstEntriesFrom idx ms = (List.enumFrom idx ms).map
      (fun p => (p.2.name.value,
        match p.2.initializer with
        | some lit => lit.value
        | none => toString p.1)) := by
  induction ms generalizing idx with
  | nil => rfl
  | cons m ms ih => simp [enumConstEntriesFrom, List.enumFrom, ih]

theorem enumConstEntriesFrom_all_none (ms : List EnumMember)
    (h : ∀ m ∈ ms, m.initializer = none) :
    ∀ idx, enumConstEntriesFrom idx ms = (List.enumFrom idx ms).map
      (fun p => (p.2.name.value, toString p.1)) := by
  induction ms with
  | nil => intro idx; rfl
  | cons m ms ih =>
    intro idx
    have hm := h m (List.mem_cons_self m ms)
    simp [enumConstEntriesFrom, List.enumFrom, hm,
      ih (fun x hx => h x (List.mem_cons_of_mem _ hx)) (idx + 1)]

/-- C8: the `const` object emitted for an enum maps member names, in
declaration order, to the explicit integer initializer when present, and
to the auto-assigned zero-based index (first member 0, second 1, ...)
when every initializer is absent. -/
theorem C8_enum_auto_index (ms : List EnumMember) :
    ((∀ m ∈ ms, m.initializer = none) →
      enumConstEntries ms = ms.enum.map (fun p => (p.2.name.value, toString p.1))) ∧
    enumConstEntries ms = ms.enum.map (fun p =>
      (p.2.name.value,
        match p.2.initializer with
        | some lit => lit.value
        | none => toString p.1)) := by
  constructor
  · intro hall
    exact enumConstEntriesFrom_all_none ms hall 0
  · exact enumConstEntriesFrom_eq 0 ms

/-! Preservation of the driver invariant. -/

theorem count_running_pending (g f : String) (l r : List Task) :
    (l ++ Task.pending f :: r).count (Task.running g) =
      (l ++ r).count (Task.running g) := by
  simp [List.count_append, List.count_cons]

theorem count_running_running (g f : String) (l r : List Task) :
    (l ++ Task.running f :: r).count (Task.running g) =
      (l ++ r).count (Task.running g) + (if f = g then 1 else 0) := by
  by_cases hfg : f = g <;>
    simp [List.count_append, List.count_cons, hfg] <;> omega

theorem countP_isRunning_pending (f : String) (l r : List Task) :
    (l ++ Task.pending f :: r).countP Task.isRunning =
      (l ++ r).countP Task.isRunning := by
  simp [List.countP_append, List.countP_cons, Task.isRunning]

theorem countP_isRunning_running (f : String) (l r : List Task) :
    (l ++ Task.running f :: r).countP Task.isRunning =
      (l ++ r).countP Task.isRunning + 1 := by
  simp [List.countP_append, List.countP_cons, Task.isRunning]
  omega

theorem count_running_map_pending (g : String) (ds : List String)
    (fn : String → String) :
    (ds.map (fun d => Task.pending (fn d))).count (Task.running g) = 0 := by
  rw [List.count_eq_zero]
  intro hmem
  rcases List.mem_map.mp hmem with ⟨d, _, hd⟩
  exact Task.noConfusion hd

theorem countP_isRunning_map_pending (ds : List String) (fn : String → String) :
    (ds.map (fun d => Task.pending (fn d))).countP Task.isRunning = 0 := by
  rw [List.countP_eq_zero]
  intro t ht
  rcases List.mem_map.mp ht with ⟨d, _, hd⟩
  rw [← hd]
  simp [Task.isRunning]

theorem pending_mem_middle {g : String} {t : Task} {l r : List Task}
    (h : Task.pending g ∈ l ++ t :: r) : Task.pending g = t ∨ Task.pending g ∈ l ++ r := by
  rcases List.mem_append.mp h with hl | hr
  · exact Or.inr (List.mem_append.mpr (Or.inl hl))
  · rcases List.mem_cons.mp hr with he | hr2
    · exact Or.inl he
    · exact Or.inr (List.mem_append.mpr (Or.inr hr2))

theorem pending_mem_extend {g : String} {t : Task} {l r : List Task}
    (h : Task.pending g ∈ l ++ r) : Task.pending g ∈ l ++ t :: r := by
  rcases List.mem_append.mp h with hl | hr
  · exact List.mem_append.mpr (Or.inl hl)
  · exact List.mem_append.mpr (Or.inr (List.mem_cons_of_mem _ hr))

/-- A running task's file has been admitted to the seen set. -/
theorem DInv.running_seen {env : DriverEnv} {inputs : List String} {s : DriverState}
    (hinv : DInv env inputs s) {f : String}
    (h : Task.running f ∈ s.tasks) : f ∈ s.seen := by
  have hb := hinv.onceBound f
  by_cases hf : f ∈ s.seen
  · exact hf
  · rw [if_neg hf] at hb
    have := List.count_pos_iff.mpr h
    omega

theorem DInv_skip {env : DriverEnv} {inputs : List String} {s : DriverState}
    {l r : List Task} {f : String}
    (hinv : DInv env inputs s) (htasks : s.tasks = l ++ Task.pending f :: r)
    (hseen : f ∈ s.seen) : DInv env inputs { s with tasks := l ++ r } := by
  constructor
  · exact hinv.seenNodup
  · intro g
    have hb := hinv.onceBound g
    rw [htasks, count_running_pending] at hb
    exact hb
  · have hb := hinv.sizeEq
    rw [htasks, countP_isRunning_pending] at hb
    exact hb
  · exact hinv.readsSeen
  · exact hinv.readsRel
  · intro g hg
    rcases hinv.inputsSpawned g hg with hl2 | hr2
    · exact Or.inl hl2
    · rw [htasks] at hr2
      rcases pending_mem_middle hr2 with he | hm
      · injection he with he2
        rw [he2]
        exact Or.inl hseen
      · exact Or.inr hm
  · intro g hg d hd
    rcases hinv.depsSpawned g hg d hd with hl2 | hr2
    · exact Or.inl hl2
    · rw [htasks] at hr2
      rcases pending_mem_middle hr2 with he | hm
      · injection he with he2
        rw [he2]
        exact Or.inl hseen
      · exact Or.inr hm
  · exact hinv.writesChar
  · exact hinv.errsChar
  · exact hinv.errsCover
  · exact hinv.errsLen

theorem DInv_acquire {env : DriverEnv} {inputs : List String} {s : DriverState}
    {l r : List Task} {f : String}
    (hinv : DInv env inputs s) (htasks : s.tasks = l ++ Task.pending f :: r)
    (hfseen : f ∉ s.seen) :
    DInv env inputs { s with seen := s.seen ++ [f], tasks := l ++ Task.running f :: r } := by
  constructor
  · rw [List.nodup_append]
    refine ⟨hinv.seenNodup, List.nodup_singleton f, ?_⟩
    intro a ha hb
    rw [List.mem_singleton] at hb
    subst hb
    exact hfseen ha
  · intro g
    have hb := hinv.onceBound g
    rw [htasks, count_running_pending] at hb
    dsimp only
    by_cases hg : g = f
    · subst hg
      rw [if_neg hfseen] at hb
      rw [count_running_running, if_pos rfl]
      have h1 : g ∈ s.seen ++ [g] :=
        List.mem_append.mpr (Or.inr (List.mem_singleton.mpr rfl))
      rw [if_pos h1]
      omega
    · rw [count_running_running, if_neg (fun hh => hg hh.symm)]
      have h2 : (if g ∈ s.seen ++ [f] then 1 else 0) = (if g ∈ s.seen then 1 else 0) := by
        simp [List.mem_append, List.mem_singleton, hg]
      rw [h2]
      omega
  · have hb := hinv.sizeEq
    rw [htasks, countP_isRunning_pending] at hb
    rw [countP_isRunning_running, List.length_append]
    simp only [List.length_singleton]
    omega
  · intro g hg
    exact List.mem_append.mpr (Or.inl (hinv.readsSeen g hg))
  · exact hinv.readsRel
  · intro g hg
    rcases hinv.inputsSpawned g hg with hl2 | hr2
    · exact Or.inl (List.mem_append.mpr (Or.inl hl2))
    · rw [htasks] at hr2
      rcases pending_mem_middle hr2 with he | hm
      · injection he with he2
        rw [he2]
        exact Or.inl (List.mem_append.mpr (Or.inr (List.mem_singleton.mpr rfl)))
      · exact Or.inr (pending_mem_extend hm)
  · intro g hg d hd
    rcases hinv.depsSpawned g hg d hd with hl2 | hr2
    · exact Or.inl (List.mem_append.mpr (Or.inl hl2))
    · rw [htasks] at hr2
      rcases pending_mem_middle hr2 with he | hm
      · injection he with he2
        rw [he2]
        exact Or.inl (List.mem_append.mpr (Or.inr (List.mem_singleton.mpr rfl)))
      · exact Or.inr (pending_mem_extend hm)
  · exact hinv.writesChar
  · exact hinv.errsChar
  · exact hinv.errsCover
  · exact hinv.errsLen

theorem DInv_runErr {env : DriverEnv} {inputs : List String} {s : DriverState}
    {l r : List Task} {f rel msg : String}
    (hinv : DInv env inputs s) (htasks : s.tasks = l ++ Task.running f :: r)
    (hrel : relName env.srcDir f = some rel)
    (hparse : env.parseDoc (env.contents f) = Except.error msg) :
    DInv env inputs
      { s with
        tasks := l ++ r
        reads := s.reads ++ [f]
        errs := s.errs ++ [errLine rel msg] } := by
  have hmemf : Task.running f ∈ s.tasks := by
    rw [htasks]
    exact List.mem_append.mpr (Or.inr (List.mem_cons_self _ _))
  have hfseen : f ∈ s.seen := hinv.running_seen hmemf
  constructor
  · exact hinv.seenNodup
  · intro g
    dsimp only
    have hb := hinv.onceBound g
    rw [htasks] at hb
    by_cases hg : f = g
    · subst hg
      rw [if_pos hfseen] at hb ⊢
      simp only [List.count_append, List.count_cons, List.count_nil,
        beq_self_eq_true, if_true] at hb ⊢
      omega
    · have hbeq : (Task.running f == Task.running g) = false := by simp [hg]
      have hbeq2 : (f == g) = false := by simp [hg]
      simp only [List.count_append, List.count_cons, List.count_nil,
        hbeq, hbeq2, Bool.false_eq_true, if_false] at hb ⊢
      omega
  · dsimp only
    have hb := hinv.sizeEq
    rw [htasks, countP_isRunning_running] at hb
    simp only [List.countP_append, List.length_append, List.length_singleton] at hb ⊢
    omega
  · intro g hg
    rcases List.mem_append.mp hg with ho | hn
    · exact hinv.readsSeen g ho
    · rw [List.mem_singleton] at hn
      subst hn
      exact hfseen
  · intro g hg
    rcases List.mem_append.mp hg with ho | hn
    · exact hinv.readsRel g ho
    · rw [List.mem_singleton] at hn
      subst hn
      rw [hrel]
      rfl
  · intro g hg
    rcases hinv.inputsSpawned g hg with hl2 | hr2
    · exact Or.inl hl2
    · rw [htasks] at hr2
      rcases pending_mem_middle hr2 with he | hm
      · exact absurd he (by simp)
      · exact Or.inr hm
  · intro g hg d hd
    rcases List.mem_append.mp hg with ho | hn
    · rcases hinv.depsSpawned g ho d hd with hl2 | hr2
      · exact Or.inl hl2
      · rw [htasks] at hr2
        rcases pending_mem_middle hr2 with he | hm
        · exact absurd he (by simp)
        · exact Or.inr hm
    · rw [List.mem_singleton] at hn
      subst hn
      simp [resolvedDeps, hparse] at hd
  · intro X
    rw [List.countP_append, hinv.writesChar X]
    have h0 : List.countP (fun f2 => outPathOf env f2 == X && parseOkB env f2) [f] = 0 := by
      simp [List.countP_cons, parseOkB, hparse]
    omega
  · intro e he
    rcases List.mem_append.mp he with ho | hn
    · rcases hinv.errsChar e ho with ⟨g, relg, msgg, hg, hrelg, hparseg, hee⟩
      exact ⟨g, relg, msgg, List.mem_append.mpr (Or.inl hg), hrelg, hparseg, hee⟩
    · rw [List.mem_singleton] at hn
      exact ⟨f, rel, msg, List.mem_append.mpr (Or.inr (List.mem_singleton.mpr rfl)),
        hrel, hparse, hn⟩
  · intro g hg rel2 msg2 hrel2 hparse2
    rcases List.mem_append.mp hg with ho | hn
    · exact List.mem_append.mpr (Or.inl (hinv.errsCover g ho rel2 msg2 hrel2 hparse2))
    · rw [List.mem_singleton] at hn
      subst hn
      rw [hrel] at hrel2
      injection hrel2 with hrel3
      rw [hparse] at hparse2
      injection hparse2 with hparse3
      rw [← hrel3, ← hparse3]
      exact List.mem_append.mpr (Or.inr (List.mem_singleton.mpr rfl))
  · rw [List.length_append, List.countP_append, hinv.errsLen, List.length_singleton]
    have h0 : List.countP (fun f2 => !(parseOkB env f2)) [f] = 1 := by
      simp [List.countP_cons, parseOkB, hparse]
    omega

theorem DInv_runOk {env : DriverEnv} {inputs : List String} {s : DriverState}
    {l r : List Task} {f rel : String} {doc : ThriftDocument}
    (hinv : DInv env inputs s) (htasks : s.tasks = l ++ Task.running f :: r)
    (hrel : relName env.srcDir f = some rel)
    (hparse : env.parseDoc (env.contents f) = Except.ok doc) :
    DInv env inputs
      { s with
        tasks := l ++ r ++
          (collectDeps doc).map (fun dep => Task.pending (joinPath (parentDir f) dep))
        reads := s.reads ++ [f]
        writes := s.writes ++ [(setExtTs (joinPath env.outDir rel), env.generate doc)] } := by
  have hmemf : Task.running f ∈ s.tasks := by
    rw [htasks]
    exact List.mem_append.mpr (Or.inr (List.mem_cons_self _ _))
  have hfseen : f ∈ s.seen := hinv.running_seen hmemf
  have hresolved : resolvedDeps env f =
      (collectDeps doc).map (fun dep => joinPath (parentDir f) dep) := by
    simp [resolvedDeps, hparse]
  have houtp : outPathOf env f = setExtTs (joinPath env.outDir rel) := by
    simp [outPathOf, hrel]
  constructor
  · exact hinv.seenNodup
  · intro g
    dsimp only
    have hb := hinv.onceBound g
    rw [htasks] at hb
    have h0 : ((collectDeps doc).map
        (fun dep => Task.pending (joinPath (parentDir f) dep))).count (Task.running g) = 0 :=
      count_running_map_pending g (collectDeps doc) _
    by_cases hg : f = g
    · subst hg
      rw [if_pos hfseen] at hb ⊢
      simp only [List.count_append, List.count_cons, List.count_nil,
        beq_self_eq_true, if_true, h0] at hb ⊢
      omega
    · have hbeq : (Task.running f == Task.running g) = false := by simp [hg]
      have hbeq2 : (f == g) = false := by simp [hg]
      simp only [List.count_append, List.count_cons, List.count_nil,
        hbeq, hbeq2, Bool.false_eq_true, if_false, h0] at hb ⊢
      omega
  · dsimp only
    have hb := hinv.sizeEq
    rw [htasks, countP_isRunning_running] at hb
    have h0 : ((collectDeps doc).map
        (fun dep => Task.pending (joinPath (parentDir f) dep))).countP Task.isRunning = 0 :=
      countP_isRunning_map_pending (collectDeps doc) _
    simp only [List.countP_append, List.length_append, List.length_singleton, h0] at hb ⊢
    omega
  · intro g hg
    rcases List.mem_append.mp hg with ho | hn
    · exact hinv.readsSeen g ho
    · rw [List.mem_singleton] at hn
      subst hn
      exact hfseen
  · intro g hg
    rcases List.mem_append.mp hg with ho | hn
    · exact hinv.readsRel g ho
    · rw [List.mem_singleton] at hn
      subst hn
      rw [hrel]
      rfl
  · intro g hg
    rcases hinv.inputsSpawned g hg with hl2 | hr2
    · exact Or.inl hl2
    · rw [htasks] at hr2
      rcases pending_mem_middle hr2 with he | hm
      · exact absurd he (by simp)
      · exact Or.inr (List.mem_append.mpr (Or.inl hm))
  · intro g hg d hd
    rcases List.mem_append.mp hg with ho | hn
    · rcases hinv.depsSpawned g ho d hd with hl2 | hr2
      · exact Or.inl hl2
      · rw [htasks] at hr2
        rcases pending_mem_middle hr2 with he | hm
        · exact absurd he (by simp)
        · exact Or.inr (List.mem_append.mpr (Or.inl hm))
    · rw [List.mem_singleton] at hn
      subst hn
      rw [hresolved] at hd
      rcases List.mem_map.mp hd with ⟨dep, hdep, hd2⟩
      refine Or.inr (List.mem_append.mpr (Or.inr ?_))
      exact List.mem_map.mpr ⟨dep, hdep, by rw [hd2]⟩
  · intro X
    rw [List.countP_append, List.countP_append, hinv.writesChar X]
    have h0 : List.countP (fun e => e.1 == X)
        [(setExtTs (joinPath env.outDir rel), env.generate doc)] =
        List.countP (fun f2 => outPathOf env f2 == X && parseOkB env f2) [f] := by
      simp [List.countP_cons, houtp, parseOkB, hparse]
    omega
  · intro e he
    rcases hinv.errsChar e he with ⟨g, relg, msgg, hg, hrelg, hparseg, hee⟩
    exact ⟨g, relg, msgg, List.mem_append.mpr (Or.inl hg), hrelg, hparseg, hee⟩
  · intro g hg rel2 msg2 hrel2 hparse2
    rcases List.mem_append.mp hg with ho | hn
    · exact hinv.errsCover g ho rel2 msg2 hrel2 hparse2
    · rw [List.mem_singleton] at hn
      subst hn
      rw [hparse] at hparse2
      exact Except.noConfusion hparse2
  · rw [List.countP_append, hinv.errsLen]
    have h0 : List.countP (fun f2 => !(parseOkB env f2)) [f] = 0 := by
      simp [List.countP_cons, parseOkB, hparse]
    omega

theorem DInv_step {env : DriverEnv} {inputs : List String} {s s2 : DriverState}
    (hinv : DInv env inputs s) (hstep : DStep env s s2) : DInv env inputs s2 := by
  cases hstep with
  | skip l r f htasks hseen => exact DInv_skip hinv htasks hseen
  | acquire l r f htasks hseen => exact DInv_acquire hinv htasks hseen
  | runErr l r f rel msg htasks hrel hparse => exact DInv_runErr hinv htasks hrel hparse
  | runOk l r f rel doc htasks hrel hparse => exact DInv_runOk hinv htasks hrel hparse

theorem DInv_init (env : DriverEnv) (inputs : List String) :
    DInv env inputs (initState env inputs) := by
  constructor
  · exact List.nodup_nil
  · intro f
    rw [show (initState env inputs).tasks =
        inputs.map (fun g => Task.pending (joinPath env.srcDir g)) from rfl]
    rw [count_running_map_pending]
    simp [initState]
  · rw [show (initState env inputs).tasks =
        inputs.map (fun g => Task.pending (joinPath env.srcDir g)) from rfl]
    rw [countP_isRunning_map_pending]
    rfl
  · intro g hg
    exact absurd hg (List.not_mem_nil g)
  · intro g hg
    exact absurd hg (List.not_mem_nil g)
  · intro g hg
    exact Or.inr (List.mem_map.mpr ⟨g, hg, rfl⟩)
  · intro g hg
    exact absurd hg (List.not_mem_nil g)
  · intro X
    rfl
  · intro e he
    exact absurd he (List.not_mem_nil e)
  · intro g hg
    exact absurd hg (List.not_mem_nil g)
  · rfl

theorem DInv_reaches {env : DriverEnv} {inputs : List String} {s : DriverState}
    (h : Reaches env (initState env inputs) s) : DInv env inputs s := by
  induction h with
  | refl => exact DInv_init env inputs
  | tail hsteps hstep ih => exact DInv_step ih hstep

/-! Terminal-state consequences of the invariant. -/

/-- The read log never repeats a file: each file's body runs at most once. -/
theorem reads_nodup {env : DriverEnv} {inputs : List String} {s : DriverState}
    (hinv : DInv env inputs s) : s.reads.Nodup := by
  rw [List.nodup_iff_count_le_one]
  intro a
  have hb := hinv.onceBound a
  by_cases ha : a ∈ s.seen
  · rw [if_pos ha] at hb
    omega
  · rw [if_neg ha] at hb
    omega

/-- When no task is left, exactly the admitted files have been read. -/
theorem terminal_seen_iff_reads {env : DriverEnv} {inputs : List String}
    {s : DriverState} (hinv : DInv env inputs s) (hterm : s.tasks = []) :
    ∀ f, f ∈ s.seen ↔ f ∈ s.reads := by
  have hlen : s.seen.length = s.reads.length := by
    have hb := hinv.sizeEq
    rw [hterm] at hb
    simpa using hb
  have hnr : s.reads.Nodup := reads_nodup hinv
  have hsub : s.reads.toFinset ⊆ s.seen.toFinset := by
    intro a ha
    rw [List.mem_toFinset] at ha ⊢
    exact hinv.readsSeen a ha
  have hcard : s.seen.toFinset.card ≤ s.reads.toFinset.card := by
    rw [List.toFinset_card_of_nodup hinv.seenNodup,
      List.toFinset_card_of_nodup hnr, hlen]
  have heq := Finset.eq_of_subset_of_card_le hsub hcard
  intro f
  constructor
  · intro hf
    have h2 : f ∈ s.seen.toFinset := List.mem_toFinset.mpr hf
    rw [← heq] at h2
    exact List.mem_toFinset.mp h2
  · exact hinv.readsSeen f

/-! Claim theorems for the compile driver. -/

/-- C1: deduplication — along every run of `compile` (every state reachable
from the initial batch under any scheduling), for each absolute path the
number of tasks that passed the mutex-guarded check-and-insert plus the
number of completed per-file bodies (observable as reads of that file)
never exceeds one; and when two inputs both include the same third file,
at a terminal state that file's body has run exactly once, and — provided
no other processed file maps to the same output path — its output was
written exactly once. -/
theorem C1_dedup_exactly_once
    (env : DriverEnv) (inputs : List String) (s : DriverState) (a b dep : String)
    (hr : Reaches env (initState env inputs) s)
    (hterm : s.tasks = [])
    (ha : a ∈ inputs) (hb : b ∈ inputs)
    (haOk : parseOkB env (joinPath env.srcDir a) = true)
    (hbOk : parseOkB env (joinPath env.srcDir b) = true)
    (hdepA : dep ∈ resolvedDeps env (joinPath env.srcDir a))
    (hdepB : dep ∈ resolvedDeps env (joinPath env.srcDir b))
    (hdepOk : parseOkB env dep = true) :
    (∀ f : String, s.tasks.count (Task.running f) + s.reads.count f ≤ 1) ∧
    s.reads.count dep = 1 ∧
    ((∀ g ∈ s.reads, outPathOf env g = outPathOf env dep → g = dep) →
      s.writes.countP (fun e => e.1 == outPathOf env dep) = 1) := by
  have hinv := DInv_reaches hr
  have hiff := terminal_seen_iff_reads hinv hterm
  have honce : ∀ f : String, s.tasks.count (Task.running f) + s.reads.count f ≤ 1 := by
    intro f
    have hbound := hinv.onceBound f
    by_cases hf : f ∈ s.seen
    · rw [if_pos hf] at hbound
      exact hbound
    · rw [if_neg hf] at hbound
      omega
  have haSeen : joinPath env.srcDir a ∈ s.seen := by
    rcases hinv.inputsSpawned a ha with h1 | h2
    · exact h1
    · rw [hterm] at h2
      exact absurd h2 (List.not_mem_nil _)
  have haReads : joinPath env.srcDir a ∈ s.reads := (hiff _).mp haSeen
  have hdepSeen : dep ∈ s.seen := by
    rcases hinv.depsSpawned _ haReads dep hdepA with h1 | h2
    · exact h1
    · rw [hterm] at h2
      exact absurd h2 (List.not_mem_nil _)
  have hdepReads : dep ∈ s.reads := (hiff _).mp hdepSeen
  have hdepCount : s.reads.count dep = 1 :=
    List.count_eq_one_of_mem (reads_nodup hinv) hdepReads
  refine ⟨honce, hdepCount, ?_⟩
  intro hinj
  rw [hinv.writesChar (outPathOf env dep)]
  have hcongr : s.reads.countP
      (fun g => outPathOf env g == outPathOf env dep && parseOkB env g) =
      s.reads.countP (fun g => g == dep) := by
    apply List.countP_congr
    intro g hg
    constructor
    · intro hgp
      rw [Bool.and_eq_true] at hgp
      have hge : g = dep := hinj g hg (by simpa using hgp.1)
      simp [hge]
    · intro hgp
      have hge : g = dep := by simpa using hgp
      subst hge
      simp [hdepOk]
  rw [hcongr, ← List.count_eq_countP]
  exact hdepCount

/-- C3: error surfacing — at the end of any run in which an admitted file
fails to parse, that file's formatted line was sent on the error channel,
and `compile` returns an `Err` whose string is exactly
`"Compiler failed: <relative-path>. <detail>"` for a failing file;
when the failing file is unique, the returned error names that file. -/
theorem C3_error_surfaced
    (env : DriverEnv) (inputs : List String) (s : DriverState) (f rel msg : String)
    (hr : Reaches env (initState env inputs) s)
    (hterm : s.tasks = [])
    (hf : f ∈ s.seen)
    (hrel : relName env.srcDir f = some rel)
    (hparse : env.parseDoc (env.contents f) = Except.error msg) :
    errLine rel msg ∈ s.errs ∧
    (∃ g relg msgg, g ∈ s.seen ∧ relName env.srcDir g = some relg ∧
      env.parseDoc (env.contents g) = Except.error msgg ∧
      compileResult s = Except.error (errLine relg msgg)) ∧
    ((∀ g ∈ s.seen, ∀ m, env.parseDoc (env.contents g) = Except.error m → g = f) →
      compileResult s = Except.error (errLine rel msg)) := by
  have hinv := DInv_reaches hr
  have hiff := terminal_seen_iff_reads hinv hterm
  have hfr : f ∈ s.reads := (hiff f).mp hf
  have hmem : errLine rel msg ∈ s.errs := hinv.errsCover f hfr rel msg hrel hparse
  have hne : s.errs ≠ [] := by
    intro h0
    rw [h0] at hmem
    exact absurd hmem (List.not_mem_nil _)
  obtain ⟨e, es, herrs⟩ : ∃ e es, s.errs = e :: es := by
    cases herr : s.errs with
    | nil => exact absurd herr hne
    | cons e es => exact ⟨e, es, rfl⟩
  have hresult : compileResult s = Except.error e := by
    simp [compileResult, herrs]
  have hein : e ∈ s.errs := by
    rw [herrs]
    exact List.mem_cons_self _ _
  rcases hinv.errsChar e hein with ⟨g, relg, msgg, hgr, hrelg, hparseg, hee⟩
  refine ⟨hmem, ⟨g, relg, msgg, (hiff g).mpr hgr, hrelg, hparseg, ?_⟩, ?_⟩
  · rw [hresult, hee]
  · intro huniq
    have hgf : g = f := huniq g ((hiff g).mpr hgr) msgg hparseg
    subst hgf
    rw [hrelg] at hrel
    injection hrel with h1
    rw [hparseg] at hparse
    injection hparse with h2
    rw [hresult, hee, h1, h2]

/-! Termination of the driver: a weight argument.  Every step strictly
decreases `potential`, so no infinite schedule exists. -/

theorem sum_filter_mono {w : String → Nat} {p q : String → Bool} (l : List String)
    (h : ∀ a, p a = true → q a = true) :
    ((l.filter p).map w).sum ≤ ((l.filter q).map w).sum := by
  induction l with
  | nil => simp
  | cons a l ih =>
    by_cases hp : p a = true
    · rw [List.filter_cons_of_pos hp, List.filter_cons_of_pos (h a hp)]
      simp only [List.map_cons, List.sum_cons]
      omega
    · rw [List.filter_cons_of_neg (by simpa using hp)]
      by_cases hq : q a = true
      · rw [List.filter_cons_of_pos hq]
        simp only [List.map_cons, List.sum_cons]
        omega
      · rw [List.filter_cons_of_neg (by simpa using hq)]
        exact ih

/-- Admitting `f` removes at least its own weight from the unseen credit. -/
theorem sum_filter_remove {w : String → Nat} (U : List String) (seen : List String)
    (f : String) (hfseen : f ∉ seen) :
    f ∈ U →
    ((U.filter (fun g => !((seen ++ [f]).contains g))).map w).sum + w f ≤
      ((U.filter (fun g => !(seen.contains g))).map w).sum := by
  have himp : ∀ a : String, (!((seen ++ [f]).contains a)) = true →
      (!(seen.contains a)) = true := by
    intro a ha
    have h1 : a ∉ seen ++ [f] := by simpa using ha
    have h2 : a ∉ seen := fun hmem => h1 (List.mem_append.mpr (Or.inl hmem))
    simpa using h2
  induction U with
  | nil => intro hfU; exact absurd hfU (List.not_mem_nil f)
  | cons u U ih =>
    intro hfU
    by_cases hu : u = f
    · subst hu
      have hnew : ¬ ((!((seen ++ [u]).contains u)) = true) := by simp
      have hold : (!(seen.contains u)) = true := by simpa using hfseen
      simp only [List.filter_cons]
      rw [if_neg hnew, if_pos hold]
      simp only [List.map_cons, List.sum_cons]
      have hm := sum_filter_mono (w := w) U himp
      omega
    · have hcond : (!((seen ++ [f]).contains u)) = (!(seen.contains u)) := by
        by_cases hus : u ∈ seen
        · simp [hus]
        · simp [hus, hu]
      have hfU2 : f ∈ U := by
        rcases List.mem_cons.mp hfU with he | hm
        · exact absurd he.symm hu
        · exact hm
      simp only [List.filter_cons]
      rw [hcond]
      by_cases hus : (!(seen.contains u)) = true
      · rw [if_pos hus, if_pos hus]
        simp only [List.map_cons, List.sum_cons]
        have := ih hfU2
        omega
      · rw [if_neg hus, if_neg hus]
        exact ih hfU2

theorem mem_append_extend {α : Type} {t x : α} {l r : List α}
    (h : t ∈ l ++ r) : t ∈ l ++ x :: r := by
  rcases List.mem_append.mp h with hl | hr
  · exact List.mem_append.mpr (Or.inl hl)
  · exact List.mem_append.mpr (Or.inr (List.mem_cons_of_mem _ hr))

/-- The universe `U` contains every task file, along every step, provided
it contains the initial tasks and is closed under dependency resolution. -/
theorem tasksIn_step {env : DriverEnv} {U : List String} {s s2 : DriverState}
    (hU : ∀ f ∈ U, ∀ d ∈ resolvedDeps env f, d ∈ U)
    (hin : ∀ t ∈ s.tasks, Task.file t ∈ U) (hstep : DStep env s s2) :
    ∀ t ∈ s2.tasks, Task.file t ∈ U := by
  cases hstep with
  | skip l r f htasks hseen =>
    intro t ht
    dsimp only at ht
    apply hin
    rw [htasks]
    exact mem_append_extend ht
  | acquire l r f htasks hfseen =>
    intro t ht
    dsimp only at ht
    rcases List.mem_append.mp ht with hl | hr
    · exact hin t (by rw [htasks]; exact List.mem_append.mpr (Or.inl hl))
    · rcases List.mem_cons.mp hr with he | hr2
      · subst he
        have : Task.file (Task.pending f) ∈ U := by
          apply hin
          rw [htasks]
          exact List.mem_append.mpr (Or.inr (List.mem_cons_self _ _))
        exact this
      · exact hin t (by
          rw [htasks]
          exact List.mem_append.mpr (Or.inr (List.mem_cons_of_mem _ hr2)))
  | runErr l r f rel msg htasks hrel hparse =>
    intro t ht
    dsimp only at ht
    apply hin
    rw [htasks]
    exact mem_append_extend ht
  | runOk l r f rel doc htasks hrel hparse =>
    intro t ht
    dsimp only at ht
    rcases List.mem_append.mp ht with hlr | hnew
    · apply hin
      rw [htasks]
      exact mem_append_extend hlr
    · rcases List.mem_map.mp hnew with ⟨dep, hdep, hd⟩
      have hfU : f ∈ U := by
        have : Task.file (Task.running f) ∈ U := by
          apply hin
          rw [htasks]
          exact List.mem_append.mpr (Or.inr (List.mem_cons_self _ _))
        exact this
      have hdres : joinPath (parentDir f) dep ∈ resolvedDeps env f := by
        rw [show resolvedDeps env f =
          (collectDeps doc).map (fun d => joinPath (parentDir f) d) by
            simp [resolvedDeps, hparse]]
        exact List.mem_map.mpr ⟨dep, hdep, rfl⟩
      rw [← hd]
      exact hU f hfU _ hdres

/-- Every driver step strictly decreases the termination measure. -/
theorem potential_step {env : DriverEnv} {U : List String} {s s2 : DriverState}
    (hin : ∀ t ∈ s.tasks, Task.file t ∈ U) (hstep : DStep env s s2) :
    potential env U s2 < potential env U s := by
  cases hstep with
  | skip l r f htasks hseen =>
    unfold potential
    dsimp only
    rw [htasks]
    simp only [List.map_append, List.sum_append, List.map_cons, List.sum_cons, taskW]
    omega
  | acquire l r f htasks hfseen =>
    unfold potential
    dsimp only
    rw [htasks]
    have hfU : f ∈ U := by
      have : Task.file (Task.pending f) ∈ U := by
        apply hin
        rw [htasks]
        exact List.mem_append.mpr (Or.inr (List.mem_cons_self _ _))
      exact this
    have hdrop := sum_filter_remove (w := fun g => 1 + 2 * depCount env g)
      U s.seen f hfseen hfU
    dsimp only at hdrop
    simp only [List.map_append, List.sum_append, List.map_cons, List.sum_cons, taskW]
    omega
  | runErr l r f rel msg htasks hrel hparse =>
    unfold potential
    dsimp only
    rw [htasks]
    simp only [List.map_append, List.sum_append, List.map_cons, List.sum_cons, taskW]
    omega
  | runOk l r f rel doc htasks hrel hparse =>
    unfold potential
    dsimp only
    rw [htasks]
    have hdc : depCount env f = (collectDeps doc).length := by
      simp [depCount, resolvedDeps, hparse]
    have hsum : (((collectDeps doc).map
        (fun dep => Task.pending (joinPath (parentDir f) dep))).map (taskW env)).sum =
        2 * (collectDeps doc).length := by
      rw [List.map_map]
      have : ((collectDeps doc).map
          ((taskW env) ∘ (fun dep => Task.pending (joinPath (parentDir f) dep)))) =
          (collectDeps doc).map (fun _ => 2) := by
        apply List.map_congr_left
        intro d hd
        rfl
      rw [this]
      simp [List.map_const', List.sum_replicate, smul_eq_mul]
      omega
    simp only [List.map_append, List.sum_append, List.map_cons, List.sum_cons,
      taskW, hsum, hdc]
    omega

/-- A successfully parsed, admitted file has its output among the writes. -/
theorem write_exists {env : DriverEnv} {inputs : List String} {s : DriverState}
    (hinv : DInv env inputs s) {f : String}
    (hfr : f ∈ s.reads) (hok : parseOkB env f = true) :
    ∃ w ∈ s.writes, w.1 = outPathOf env f := by
  have hc := hinv.writesChar (outPathOf env f)
  have hpos : 0 < s.reads.countP
      (fun g => outPathOf env g == outPathOf env f && parseOkB env g) :=
    List.countP_pos_iff.mpr ⟨f, hfr, by simp [hok]⟩
  have hpos2 : 0 < s.writes.countP (fun e => e.1 == outPathOf env f) := by
    rw [hc]
    exact hpos
  rcases List.countP_pos_iff.mp hpos2 with ⟨w2, hw, hwp⟩
  exact ⟨w2, hw, by simpa using hwp⟩

/-- C2: include cycles — for every include graph whose reachable files lie
in a finite, dependency-closed universe `U` (in particular the cyclic
graph where A includes B and B includes A), every schedule of `compile`
terminates: no infinite step sequence exists; and at the end of every
successful run the output files for both A and B have been written. -/
theorem C2_cycle_terminates
    (env : DriverEnv) (inputs : List String) (U : List String)
    (a : String) (aAbs bAbs : String)
    (hU : ∀ f ∈ U, ∀ d ∈ resolvedDeps env f, d ∈ U)
    (hInit : ∀ t ∈ (initState env inputs).tasks, Task.file t ∈ U)
    (ha : a ∈ inputs) (haAbs : joinPath env.srcDir a = aAbs)
    (haOk : parseOkB env aAbs = true)
    (hab : bAbs ∈ resolvedDeps env aAbs)
    (hbOk : parseOkB env bAbs = true)
    (hba : aAbs ∈ resolvedDeps env bAbs) :
    (∀ g : ℕ → DriverState, g 0 = initState env inputs →
      ¬ (∀ n, DStep env (g n) (g (n + 1)))) ∧
    (∀ s, Reaches env (initState env inputs) s → s.tasks = [] → s.errs = [] →
      (∃ w ∈ s.writes, w.1 = outPathOf env aAbs) ∧
      (∃ w ∈ s.writes, w.1 = outPathOf env bAbs)) := by
  constructor
  · intro g hg0 hsteps
    have hIn : ∀ n, ∀ t ∈ (g n).tasks, Task.file t ∈ U := by
      intro n
      induction n with
      | zero => rw [hg0]; exact hInit
      | succ n ih => exact tasksIn_step hU ih (hsteps n)
    have hdec : ∀ n, potential env U (g (n + 1)) < potential env U (g n) :=
      fun n => potential_step (hIn n) (hsteps n)
    have hbound : ∀ n, potential env U (g n) + n ≤ potential env U (g 0) := by
      intro n
      induction n with
      | zero => omega
      | succ n ih =>
        have := hdec n
        omega
    have := hbound (potential env U (g 0) + 1)
    omega
  · intro s hr hterm herrs
    have hinv := DInv_reaches hr
    have hiff := terminal_seen_iff_reads hinv hterm
    have haSeen : aAbs ∈ s.seen := by
      rcases hinv.inputsSpawned a ha with h1 | h2
      · rw [haAbs] at h1
        exact h1
      · rw [hterm] at h2
        exact absurd h2 (List.not_mem_nil _)
    have haReads : aAbs ∈ s.reads := (hiff _).mp haSeen
    have hbSeen : bAbs ∈ s.seen := by
      rcases hinv.depsSpawned _ haReads bAbs hab with h1 | h2
      · exact h1
      · rw [hterm] at h2
        exact absurd h2 (List.not_mem_nil _)
    have hbReads : bAbs ∈ s.reads := (hiff _).mp hbSeen
    exact ⟨write_exists hinv haReads haOk, write_exists hinv hbReads hbOk⟩

/-- One complete schedule of `compile` on the diamond graph: admit and
process `a`, then `b`, then the shared include `c`, and skip the second
task for `c`. -/
theorem diamondChain :
    Reaches diamondEnv (initState diamondEnv ["a.thrift", "b.thrift"]) diamondFinal := by
  apply Relation.ReflTransGen.head
    (DStep.acquire _ [] [Task.pending "/s/b.thrift"] "/s/a.thrift" (by decide) (by decide))
  apply Relation.ReflTransGen.head
    (DStep.runOk _ [] [Task.pending "/s/b.thrift"] "/s/a.thrift" "a.thrift"
      ⟨[TopDefinition.Include ⟨⟨"c.thrift"⟩⟩]⟩ (by decide) (by decide) (by rfl))
  apply Relation.ReflTransGen.head
    (DStep.acquire _ [] [Task.pending "/s/c.thrift"] "/s/b.thrift" (by decide) (by decide))
  apply Relation.ReflTransGen.head
    (DStep.runOk _ [] [Task.pending "/s/c.thrift"] "/s/b.thrift" "b.thrift"
      ⟨[TopDefinition.Include ⟨⟨"c.thrift"⟩⟩]⟩ (by decide) (by decide) (by rfl))
  apply Relation.ReflTransGen.head
    (DStep.acquire _ [] [Task.pending "/s/c.thrift"] "/s/c.thrift" (by decide) (by decide))
  apply Relation.ReflTransGen.head
    (DStep.runOk _ [] [Task.pending "/s/c.thrift"] "/s/c.thrift" "c.thrift"
      ⟨[]⟩ (by decide) (by decide) (by rfl))
  apply Relation.ReflTransGen.head
    (DStep.skip _ [] [] "/s/c.thrift" (by decide) (by decide))
  exact Relation.ReflTransGen.refl

/-- Witness for C1 on the concrete diamond include graph, along a
complete concrete schedule. -/
theorem C1_dedup_exactly_once_witness :
    Reaches diamondEnv (initState diamondEnv ["a.thrift", "b.thrift"]) diamondFinal ∧
    diamondFinal.tasks = [] ∧
    "a.thrift" ∈ ["a.thrift", "b.thrift"] ∧
    "b.thrift" ∈ ["a.thrift", "b.thrift"] ∧
    parseOkB diamondEnv (joinPath diamondEnv.srcDir "a.thrift") = true ∧
    parseOkB diamondEnv (joinPath diamondEnv.srcDir "b.thrift") = true ∧
    "/s/c.thrift" ∈ resolvedDeps diamondEnv (joinPath diamondEnv.srcDir "a.thrift") ∧
    "/s/c.thrift" ∈ resolvedDeps diamondEnv (joinPath diamondEnv.srcDir "b.thrift") ∧
    parseOkB diamondEnv "/s/c.thrift" = true ∧
    ((∀ f : String, diamondFinal.tasks.count (Task.running f) +
        diamondFinal.reads.count f ≤ 1) ∧
      diamondFinal.reads.count "/s/c.thrift" = 1 ∧
      ((∀ g ∈ diamondFinal.reads,
          outPathOf diamondEnv g = outPathOf diamondEnv "/s/c.thrift" →
          g = "/s/c.thrift") →
        diamondFinal.writes.countP
          (fun e => e.1 == outPathOf diamondEnv "/s/c.thrift") = 1)) := by
  refine ⟨diamondChain, rfl, by decide, by decide, by decide, by decide,
    by decide, by decide, by decide, ?_⟩
  exact C1_dedup_exactly_once diamondEnv ["a.thrift", "b.thrift"] diamondFinal
    "a.thrift" "b.thrift" "/s/c.thrift" diamondChain rfl (by decide) (by decide)
    (by decide) (by decide) (by decide) (by decide) (by decide)

/-- One complete schedule of `compile` on the cyclic graph: process `a`,
then `b`, then skip the task `b` spawned for `a` again. -/
theorem cycleChain :
    Reaches cycleEnv (initState cycleEnv ["a.thrift"]) cycleFinal := by
  apply Relation.ReflTransGen.head
    (DStep.acquire _ [] [] "/s/a.thrift" (by decide) (by decide))
  apply Relation.ReflTransGen.head
    (DStep.runOk _ [] [] "/s/a.thrift" "a.thrift"
      ⟨[TopDefinition.Include ⟨⟨"b.thrift"⟩⟩]⟩ (by decide) (by decide) (by rfl))
  apply Relation.ReflTransGen.head
    (DStep.acquire _ [] [] "/s/b.thrift" (by decide) (by decide))
  apply Relation.ReflTransGen.head
    (DStep.runOk _ [] [] "/s/b.thrift" "b.thrift"
      ⟨[TopDefinition.Include ⟨⟨"a.thrift"⟩⟩]⟩ (by decide) (by decide) (by rfl))
  apply Relation.ReflTransGen.head
    (DStep.skip _ [] [] "/s/a.thrift" (by decide) (by decide))
  exact Relation.ReflTransGen.refl

/-- Witness for C2 on the concrete cycle A includes B, B includes A, with
a complete successful schedule showing the hypotheses are realisable. -/
theorem C2_cycle_terminates_witness :
    (∀ f ∈ ["/s/a.thrift", "/s/b.thrift"], ∀ d ∈ resolvedDeps cycleEnv f,
      d ∈ ["/s/a.thrift", "/s/b.thrift"]) ∧
    (∀ t ∈ (initState cycleEnv ["a.thrift"]).tasks,
      Task.file t ∈ ["/s/a.thrift", "/s/b.thrift"]) ∧
    "a.thrift" ∈ ["a.thrift"] ∧
    joinPath cycleEnv.srcDir "a.thrift" = "/s/a.thrift" ∧
    parseOkB cycleEnv "/s/a.thrift" = true ∧
    "/s/b.thrift" ∈ resolvedDeps cycleEnv "/s/a.thrift" ∧
    parseOkB cycleEnv "/s/b.thrift" = true ∧
    "/s/a.thrift" ∈ resolvedDeps cycleEnv "/s/b.thrift" ∧
    Reaches cycleEnv (initState cycleEnv ["a.thrift"]) cycleFinal ∧
    cycleFinal.tasks = [] ∧ cycleFinal.errs = [] ∧
    ((∀ g : ℕ → DriverState, g 0 = initState cycleEnv ["a.thrift"] →
        ¬ (∀ n, DStep cycleEnv (g n) (g (n + 1)))) ∧
      (∀ s, Reaches cycleEnv (initState cycleEnv ["a.thrift"]) s →
        s.tasks = [] → s.errs = [] →
        (∃ w ∈ s.writes, w.1 = outPathOf cycleEnv "/s/a.thrift") ∧
        (∃ w ∈ s.writes, w.1 = outPathOf cycleEnv "/s/b.thrift"))) := by
  refine ⟨by decide, by decide, by decide, by decide, by decide, by decide,
    by decide, by decide, cycleChain, rfl, rfl, ?_⟩
  exact C2_cycle_terminates cycleEnv ["a.thrift"] ["/s/a.thrift", "/s/b.thrift"]
    "a.thrift" "/s/a.thrift" "/s/b.thrift" (by decide) (by decide) (by decide)
    (by decide) (by decide) (by decide) (by decide) (by decide)

/-- One complete schedule of `compile` in which the included file fails to
parse: process `a`, then fail on `c`. -/
theorem failChain :
    Reaches failEnv (initState failEnv ["a.thrift"]) failFinal := by
  apply Relation.ReflTransGen.head
    (DStep.acquire _ [] [] "/s/a.thrift" (by decide) (by decide))
  apply Relation.ReflTransGen.head
    (DStep.runOk _ [] [] "/s/a.thrift" "a.thrift"
      ⟨[TopDefinition.Include ⟨⟨"c.thrift"⟩⟩]⟩ (by decide) (by decide) (by rfl))
  apply Relation.ReflTransGen.head
    (DStep.acquire _ [] [] "/s/c.thrift" (by decide) (by decide))
  apply Relation.ReflTransGen.head
    (DStep.runErr _ [] [] "/s/c.thrift" "c.thrift" "boom" (by decide) (by decide) (by rfl))
  exact Relation.ReflTransGen.refl

/-- Witness for C3: a complete run in which the transitively included file
`c.thrift` fails to parse with detail `boom`. -/
theorem C3_error_surfaced_witness :
    Reaches failEnv (initState failEnv ["a.thrift"]) failFinal ∧
    failFinal.tasks = [] ∧
    "/s/c.thrift" ∈ failFinal.seen ∧
    relName failEnv.srcDir "/s/c.thrift" = some "c.thrift" ∧
    failEnv.parseDoc (failEnv.contents "/s/c.thrift") = Except.error "boom" ∧
    (errLine "c.thrift" "boom" ∈ failFinal.errs ∧
      (∃ g relg msgg, g ∈ failFinal.seen ∧ relName failEnv.srcDir g = some relg ∧
        failEnv.parseDoc (failEnv.contents g) = Except.error msgg ∧
        compileResult failFinal = Except.error (errLine relg msgg)) ∧
      ((∀ g ∈ failFinal.seen, ∀ m,
          failEnv.parseDoc (failEnv.contents g) = Except.error m → g = "/s/c.thrift") →
        compileResult failFinal = Except.error (errLine "c.thrift" "boom"))) := by
  refine ⟨failChain, rfl, by decide, by decide, by rfl, ?_⟩
  exact C3_error_surfaced failEnv ["a.thrift"] failFinal "/s/c.thrift" "c.thrift"
    "boom" failChain rfl (by decide) (by decide) (by rfl)

/-- Witness for C8 at the spec's own example `enum E { A B C }`, together
with an explicit-initializer member. -/
theorem C8_enum_auto_index_witness :
    (∀ m ∈ ([⟨⟨"A"⟩, none, []⟩, ⟨⟨"B"⟩, none, []⟩, ⟨⟨"C"⟩, none, []⟩] :
        List EnumMember), m.initializer = none) ∧
    enumConstEntries [⟨⟨"A"⟩, none, []⟩, ⟨⟨"B"⟩, none, []⟩, ⟨⟨"C"⟩, none, []⟩] =
      [("A", "0"), ("B", "1"), ("C", "2")] ∧
    enumConstEntries [⟨⟨"A"⟩, some ⟨"7"⟩, []⟩, ⟨⟨"B"⟩, none, []⟩] =
      [("A", "7"), ("B", "1")] :=
  ⟨by decide,
    ((C8_enum_auto_index _).1 (by decide)).trans (by decide),
    ((C8_enum_auto_index _).2).trans (by decide)⟩

end ThriftParser
